import Mathlib

/-!
Verification of the SIMD-width-adaptive multi-channel buffer engine of the
`avec` library (`src/avec/InterleavedBuffer.hpp`, `src/avec/VecBuffer.hpp`,
`src/avec/Simd.hpp`).

The embedding is a faithful shallow translation of the C++ sources:

* `Cfg` captures the three compile-time availability flags
  `VEC8_AVAILABLE` / `VEC4_AVAILABLE` / `VEC2_AVAILABLE` of `SimdTypes<Float>`
  (Simd.hpp).  The five valid combinations correspond to
  float+AVX, float+SSE2, double+AVX512, double+AVX, double+SSE2.
* `VecBuffer` models `VecBuffer<Vec>`: its `aligned_vector<Scalar>` payload
  is a `List α` of scalar elements and `scalarCap` is the vector capacity in
  scalars (modelled as the guaranteed minimal capacity: `std::vector`
  `reserve`/`resize` never shrink capacity and growing `resize` yields
  capacity at least the new size; growing from capacity 0 allocates exactly
  the requested size).
* `InterleavedBuffer` carries the three bucket lists and the
  `numChannels` / `capacity` / `numSamples` fields.
* The element type `α` is an arbitrary type with a zero: `interleave` /
  `deinterleave` / `fill` only move values around, so the translation is
  uniform in the scalar type; `float` and `double` differ only through the
  availability flags in `Cfg`.

All sizes are `Nat`.  The C++ counters are `uint32_t`; in every loop
modelled here the source maintains `processedChannels <= numInputChannels`
(it asserts this invariant), so the truncated `Nat` subtraction
`nIC - processed` agrees with the `uint32_t` subtraction.
-/

namespace Avec

/-- The compile-time SIMD availability flags of `SimdTypes<Scalar>`
(Simd.hpp, lines 61-72). -/
structure Cfg where
  vec8 : Bool
  vec4 : Bool
  vec2 : Bool
deriving DecidableEq, Repr

/-- float with AVX (or AVX512): `VEC8=AVX, VEC4=true, VEC2=false`. -/
def cfgFloatAvx : Cfg := ⟨true, true, false⟩

/-- float with only SSE2: `VEC8=false, VEC4=true, VEC2=false`. -/
def cfgFloatSse : Cfg := ⟨false, true, false⟩

/-- double with AVX512: `VEC8=true, VEC4=true, VEC2=true`. -/
def cfgDoubleAvx512 : Cfg := ⟨true, true, true⟩

/-- double with AVX but not AVX512: `VEC8=false, VEC4=true, VEC2=true`. -/
def cfgDoubleAvx : Cfg := ⟨false, true, true⟩

/-- double with only SSE2: `VEC8=false, VEC4=false, VEC2=true`. -/
def cfgDoubleSse : Cfg := ⟨false, false, true⟩

/-- The five flag combinations that `SimdTypes<float>` / `SimdTypes<double>`
can actually produce on some instruction set (Simd.hpp: for float,
`VEC4` is always true and `VEC2` always false; for double, `VEC2` is always
true and `VEC8 → VEC4` since AVX512 implies AVX). -/
def Cfg.valid (c : Cfg) : Prop :=
  c = cfgFloatAvx ∨ c = cfgFloatSse ∨ c = cfgDoubleAvx512 ∨
    c = cfgDoubleAvx ∨ c = cfgDoubleSse

instance (c : Cfg) : Decidable c.valid := by
  unfold Cfg.valid; infer_instance

/-- `sizeof(Scalar)` in bytes: `VEC2_AVAILABLE` holds exactly for `double`
(Simd.hpp line 71-72), so the flag determines the element size. -/
def Cfg.elemSize (c : Cfg) : Nat := if c.vec2 then 8 else 4

/-- The largest available vector width of a configuration. -/
def Cfg.maxWidth (c : Cfg) : Nat :=
  if c.vec8 then 8 else if c.vec4 then 4 else 2

/-- Result of `getNumOfVecBuffersUsedByInterleavedBuffer`: how many
`VecBuffer`s of width 2, 4 and 8 an `InterleavedBuffer` uses. -/
structure BufCounts where
  num2 : Nat
  num4 : Nat
  num8 : Nat
deriving DecidableEq, Repr

/-- Select the count of the given width from a `BufCounts`. -/
def BufCounts.ofWidth (k : BufCounts) (w : Nat) : Nat :=
  if w = 2 then k.num2 else if w = 4 then k.num4 else if w = 8 then k.num8 else 0

/-- Translation of `getNumOfVecBuffersUsedByInterleavedBuffer`
(InterleavedBuffer.hpp lines 273-322). -/
def getNumOfVecBuffersUsedByInterleavedBuffer (cfg : Cfg) (numChannels : Nat) :
    BufCounts :=
  if cfg.vec8 then
    if numChannels ≤ 4 then ⟨0, 1, 0⟩
    else
      let quot := numChannels / 8
      let rem := numChannels % 8
      ⟨0, if 0 < rem ∧ rem ≤ 4 then 1 else 0,
        quot + (if 4 < rem then 1 else 0)⟩
  else if cfg.vec4 then
    let quot := numChannels / 4
    let rem := numChannels % 4
    if cfg.vec2 then
      if numChannels ≤ 2 then ⟨1, 0, 0⟩
      else ⟨if 0 < rem ∧ rem ≤ 2 then 1 else 0,
        quot + (if 2 < rem then 1 else 0), 0⟩
    else ⟨0, quot + (if 0 < rem then 1 else 0), 0⟩
  else
    let quot := numChannels / 2
    let rem := numChannels % 2
    ⟨quot + (if 0 < rem then 1 else 0), 0, 0⟩

/-- Abbreviation for the bucket layout of a channel count. -/
def layoutOf (cfg : Cfg) (numChannels : Nat) : BufCounts :=
  getNumOfVecBuffersUsedByInterleavedBuffer cfg numChannels

/-- Total number of scalar lanes allocated across all buckets. -/
def totalLanes (cfg : Cfg) (numChannels : Nat) : Nat :=
  2 * (layoutOf cfg numChannels).num2 + 4 * (layoutOf cfg numChannels).num4 +
    8 * (layoutOf cfg numChannels).num8

/-- The result of `InterleavedChannel::doAtChannel`: which bucket width,
which bucket of that width, and which lane inside the bucket a channel is
mapped to. -/
structure ChannelLoc where
  width : Nat
  bucket : Nat
  lane : Nat
deriving DecidableEq, Repr

/-- Translation of `InterleavedChannel<Float>::doAtChannel`
(InterleavedBuffer.hpp lines 344-403).  `len2` and `len4` are
`v2.size()` and `v4.size()`. -/
def doAtChannel (cfg : Cfg) (len2 len4 : Nat) (channel : Nat) : ChannelLoc :=
  if cfg.vec8 then
    if 0 < len4 then
      if channel < 4 then ⟨4, 0, channel⟩
      else ⟨8, (channel - 4) / 8, (channel - 4) % 8⟩
    else ⟨8, channel / 8, channel % 8⟩
  else if cfg.vec4 then
    if cfg.vec2 then
      if 0 < len2 then
        if channel < 2 then ⟨2, 0, channel⟩
        else ⟨4, (channel - 2) / 4, (channel - 2) % 4⟩
      else ⟨4, channel / 4, channel % 4⟩
    else ⟨4, channel / 4, channel % 4⟩
  else ⟨2, channel / 2, channel % 2⟩

/-- The inverse of `doAtChannel` on valid locations: the channel index a
(bucket, lane) location belongs to.  Verification helper used to phrase
"this lane is (not) covered by an input channel". -/
def chanOfLoc (cfg : Cfg) (len2 len4 : Nat) (L : ChannelLoc) : Nat :=
  if cfg.vec8 then
    if 0 < len4 then
      if L.width = 4 then L.lane else 4 + 8 * L.bucket + L.lane
    else 8 * L.bucket + L.lane
  else if cfg.vec4 then
    if cfg.vec2 ∧ 0 < len2 then
      if L.width = 2 then L.lane else 2 + 4 * L.bucket + L.lane
    else 4 * L.bucket + L.lane
  else 2 * L.bucket + L.lane

/-- `std::vector::resize` on a vector of zero-initializable elements:
truncate or pad with `pad`. -/
def listResize {β : Type} (l : List β) (n : Nat) (pad : β) : List β :=
  l.take n ++ List.replicate (n - l.length) pad

/-- Model of `VecBuffer<Vec>` (VecBuffer.hpp): `data` is the
`aligned_vector<Scalar>` contents (scalar elements), `scalarCap` its
capacity in scalars (guaranteed minimal capacity, see file comment). -/
structure VecBuffer (α : Type) where
  data : List α
  scalarCap : Nat
deriving DecidableEq, Repr

variable {α : Type} [Zero α]

/-- A default-constructed `VecBuffer` (`VecBuffer(0)`): empty, no capacity. -/
def VecBuffer.empty : VecBuffer α := ⟨[], 0⟩

/-- `VecBuffer::setNumSamples(n)` for width `w`: `data.resize(n * w)`.
Growing `resize` raises the capacity to the new size. -/
def VecBuffer.setNumSamples (b : VecBuffer α) (w n : Nat) : VecBuffer α :=
  ⟨listResize b.data (n * w) 0, max b.scalarCap (n * w)⟩

/-- `VecBuffer::reserveVec(n)` for width `w`: `data.reserve(n * w)`. -/
def VecBuffer.reserveVec (b : VecBuffer α) (w n : Nat) : VecBuffer α :=
  ⟨b.data, max b.scalarCap (n * w)⟩

/-- `VecBuffer::fill(value)`: overwrite every element. -/
def VecBuffer.fill (b : VecBuffer α) (v : α) : VecBuffer α :=
  ⟨List.replicate b.data.length v, b.scalarCap⟩

/-- Model of `InterleavedBuffer<Float>` (InterleavedBuffer.hpp lines 31-256). -/
structure InterleavedBuffer (α : Type) where
  cfg : Cfg
  buffers8 : List (VecBuffer α)
  buffers4 : List (VecBuffer α)
  buffers2 : List (VecBuffer α)
  numChannels : Nat
  capacity : Nat
  numSamples : Nat
deriving DecidableEq, Repr

/-- The bucket list of a given width (`getBuffer8/4/2` each index into one
of these lists). -/
def InterleavedBuffer.bufferList (buf : InterleavedBuffer α) (w : Nat) :
    List (VecBuffer α) :=
  if w = 2 then buf.buffers2 else if w = 4 then buf.buffers4
  else if w = 8 then buf.buffers8 else []

/-- `InterleavedBuffer::reserve` (lines 408-425). -/
def InterleavedBuffer.reserve (buf : InterleavedBuffer α) (value : Nat) :
    InterleavedBuffer α :=
  if value ≤ buf.capacity then buf
  else
    { buf with
      capacity := value
      buffers8 := buf.buffers8.map (fun b => b.reserveVec 8 value)
      buffers4 := buf.buffers4.map (fun b => b.reserveVec 4 value)
      buffers2 := buf.buffers2.map (fun b => b.reserveVec 2 value) }

/-- `InterleavedBuffer::setNumSamples` (lines 427-442). -/
def InterleavedBuffer.setNumSamples (buf : InterleavedBuffer α) (value : Nat) :
    InterleavedBuffer α :=
  let buf1 := InterleavedBuffer.reserve { buf with numSamples := value } value
  { buf1 with
    buffers8 := buf1.buffers8.map (fun b => b.setNumSamples 8 value)
    buffers4 := buf1.buffers4.map (fun b => b.setNumSamples 4 value)
    buffers2 := buf1.buffers2.map (fun b => b.setNumSamples 2 value) }

/-- `InterleavedBuffer::setNumChannels` (lines 444-459).  Note that the
source calls `reserve(capacity)`, which always returns immediately since
`capacity >= capacity`; the translation keeps the call. -/
def InterleavedBuffer.setNumChannels (buf : InterleavedBuffer α) (value : Nat) :
    InterleavedBuffer α :=
  if buf.numChannels = value then buf
  else
    let k := getNumOfVecBuffersUsedByInterleavedBuffer buf.cfg value
    let buf1 : InterleavedBuffer α :=
      { buf with
        numChannels := value
        buffers8 := listResize buf.buffers8 k.num8 VecBuffer.empty
        buffers4 := listResize buf.buffers4 k.num4 VecBuffer.empty
        buffers2 := listResize buf.buffers2 k.num2 VecBuffer.empty }
    let buf2 := buf1.reserve buf1.capacity
    buf2.setNumSamples buf2.numSamples

/-- The constructor `InterleavedBuffer(numChannels, numSamples)`
(lines 135-140): member init sets `numSamples` and `capacity`, channel
count starts at 0, then `setNumChannels(numChannels)` runs. -/
def mkInterleavedBuffer (cfg : Cfg) (numChannels numSamples : Nat) :
    InterleavedBuffer α :=
  InterleavedBuffer.setNumChannels
    ⟨cfg, [], [], [], 0, numSamples, numSamples⟩ numChannels

/-- `InterleavedBuffer::fill` (lines 461-474). -/
def InterleavedBuffer.fill (buf : InterleavedBuffer α) (v : α) :
    InterleavedBuffer α :=
  { buf with
    buffers8 := buf.buffers8.map (fun b => b.fill v)
    buffers4 := buf.buffers4.map (fun b => b.fill v)
    buffers2 := buf.buffers2.map (fun b => b.fill v) }

/-- The zero-fill step at the top of `InterleavedBuffer::interleave`
(lines 570-584): clear everything when the input channel count is not a
multiple of the width of the widest non-empty bucket list. -/
def InterleavedBuffer.fillStep (buf : InterleavedBuffer α) (nIC : Nat) :
    InterleavedBuffer α :=
  if buf.cfg.vec8 = true ∧ 0 < buf.buffers8.length then
    if nIC % 8 ≠ 0 then buf.fill 0 else buf
  else if buf.cfg.vec4 = true ∧ 0 < buf.buffers4.length then
    if nIC % 4 ≠ 0 then buf.fill 0 else buf
  else if nIC % 2 ≠ 0 then buf.fill 0 else buf

/-- Innermost loop of `interleave`:
`for (j = 0; j < nIS; ++j) data[j*w + i] = input[c][j]`. -/
def writeSamples (w i : Nat) (src : List α) : Nat → List α → List α
  | 0, data => data
  | j + 1, data => (writeSamples w i src j data).set (j * w + i) (src.getD j 0)

/-- Middle loop of `interleave`:
`for (i = 0; i < r; ++i) { c = i + processed; <writeSamples> }`. -/
def writeChannels (w : Nat) (input : List (List α)) (nIS processed : Nat) :
    Nat → List α → List α
  | 0, data => data
  | i + 1, data =>
    writeSamples w i (input.getD (i + processed) []) nIS
      (writeChannels w input nIS processed i data)

/-- Result of one bucket-group loop: the updated container, the new
`processedChannels`, and whether the function returned `true` inside the
loop. -/
structure LoopOut (σ : Type) where
  st : σ
  processed : Nat
  done : Bool
deriving Repr

/-- Outer loop of one width group of `interleave` (e.g. lines 592-608):
iterate `steps` times starting at bucket `b`, carrying
`processedChannels`; return early when all input channels are written. -/
def interleaveLoop (w : Nat) (input : List (List α)) (nIC nIS : Nat) :
    Nat → Nat → List (VecBuffer α) → Nat → LoopOut (List (VecBuffer α))
  | 0, _, bufs, processed => ⟨bufs, processed, false⟩
  | steps + 1, b, bufs, processed =>
    let r := min w (nIC - processed)
    let old := bufs.getD b VecBuffer.empty
    let bufs1 := bufs.set b
      { old with data := writeChannels w input nIS processed r old.data }
    if processed + r = nIC then ⟨bufs1, processed + r, true⟩
    else interleaveLoop w input nIC nIS steps (b + 1) bufs1 (processed + r)

/-- The iteration count of a width-`w` group loop:
`min(quot + (rem > 0 ? 1 : 0), buffers.size())`. -/
def groupSteps (w nIC len : Nat) : Nat :=
  min (nIC / w + (if 0 < nIC % w then 1 else 0)) len

/-- `InterleavedBuffer::interleave` (lines 561-659).  Returns the updated
buffer and the boolean result.  The group loops run in the order
2, 4, 8 exactly as in the source, each guarded by the availability flag
and a non-empty bucket list. -/
def InterleavedBuffer.interleave (buf : InterleavedBuffer α)
    (input : List (List α)) (nIC nIS : Nat) : InterleavedBuffer α × Bool :=
  let buf0 := buf.fillStep nIC
  let g2 :=
    if buf0.cfg.vec2 = true ∧ 0 < buf0.buffers2.length then
      interleaveLoop 2 input nIC nIS (groupSteps 2 nIC buf0.buffers2.length)
        0 buf0.buffers2 0
    else ⟨buf0.buffers2, 0, false⟩
  let buf1 := { buf0 with buffers2 := g2.st }
  if g2.done then (buf1, true)
  else
    let g4 :=
      if buf1.cfg.vec4 = true ∧ 0 < buf1.buffers4.length then
        interleaveLoop 4 input nIC nIS (groupSteps 4 nIC buf1.buffers4.length)
          0 buf1.buffers4 g2.processed
      else ⟨buf1.buffers4, g2.processed, false⟩
    let buf2 := { buf1 with buffers4 := g4.st }
    if g4.done then (buf2, true)
    else
      let g8 :=
        if buf2.cfg.vec8 = true ∧ 0 < buf2.buffers8.length then
          interleaveLoop 8 input nIC nIS
            (groupSteps 8 nIC buf2.buffers8.length) 0 buf2.buffers8 g4.processed
        else ⟨buf2.buffers8, g4.processed, false⟩
      ({ buf2 with buffers8 := g8.st }, g8.done)

/-- Innermost loop of `deinterleave`:
`for (j = 0; j < nOS; ++j) output[c][j] = buffer(j*w + i)`. -/
def readSamples (w i : Nat) (bufData : List α) : Nat → List α → List α
  | 0, dst => dst
  | j + 1, dst => (readSamples w i bufData j dst).set j (bufData.getD (j * w + i) 0)

/-- Middle loop of `deinterleave` over the channels of one bucket. -/
def readChannels (w : Nat) (bufData : List α) (nOS processed : Nat) :
    Nat → List (List α) → List (List α)
  | 0, out => out
  | i + 1, out =>
    let out1 := readChannels w bufData nOS processed i out
    out1.set (i + processed)
      (readSamples w i bufData nOS (out1.getD (i + processed) []))

/-- Outer loop of one width group of `deinterleave` (e.g. lines 492-508). -/
def deinterleaveLoop (w : Nat) (bufs : List (VecBuffer α)) (nOC nOS : Nat) :
    Nat → Nat → List (List α) → Nat → LoopOut (List (List α))
  | 0, _, out, processed => ⟨out, processed, false⟩
  | steps + 1, b, out, processed =>
    let r := min w (nOC - processed)
    let out1 := readChannels w (bufs.getD b VecBuffer.empty).data nOS processed r out
    if processed + r = nOC then ⟨out1, processed + r, true⟩
    else deinterleaveLoop w bufs nOC nOS steps (b + 1) out1 (processed + r)

/-- `InterleavedBuffer::deinterleave` (lines 476-559).  Returns the updated
planar output and the boolean result.  The buffer itself is `const`. -/
def InterleavedBuffer.deinterleave (buf : InterleavedBuffer α)
    (output : List (List α)) (nOC nOS : Nat) : List (List α) × Bool :=
  if buf.numChannels < nOC ∨ buf.numSamples < nOS then (output, false)
  else
    let g2 :=
      if buf.cfg.vec2 = true ∧ 0 < buf.buffers2.length then
        deinterleaveLoop 2 buf.buffers2 nOC nOS
          (groupSteps 2 nOC buf.buffers2.length) 0 output 0
      else ⟨output, 0, false⟩
    if g2.done then (g2.st, true)
    else
      let g4 :=
        if buf.cfg.vec4 = true ∧ 0 < buf.buffers4.length then
          deinterleaveLoop 4 buf.buffers4 nOC nOS
            (groupSteps 4 nOC buf.buffers4.length) 0 g2.st g2.processed
        else ⟨g2.st, g2.processed, false⟩
      if g4.done then (g4.st, true)
      else
        let g8 :=
          if buf.cfg.vec8 = true ∧ 0 < buf.buffers8.length then
            deinterleaveLoop 8 buf.buffers8 nOC nOS
              (groupSteps 8 nOC buf.buffers8.length) 0 g4.st g4.processed
          else ⟨g4.st, g4.processed, false⟩
        (g8.st, g8.done)

/-- `InterleavedBuffer::at(channel, sample)` (lines 669-681): resolve the
channel through `doAtChannel` and form the scalar index
`numChannels * sample + channel` inside the chosen bucket (where
`numChannels` is the bucket width and `channel` the lane).  The source
performs no bounds check on this path: `VecBuffer::operator()` is plain
`data[i]`. -/
def InterleavedBuffer.atLoc (buf : InterleavedBuffer α) (channel sample : Nat) :
    ChannelLoc × Nat :=
  let L := doAtChannel buf.cfg buf.buffers2.length buf.buffers4.length channel
  (L, L.width * sample + L.lane)

/-- Read the scalar value stored for location `L` at sample `j`. -/
def InterleavedBuffer.readAt (buf : InterleavedBuffer α) (L : ChannelLoc)
    (j : Nat) : α :=
  ((buf.bufferList L.width).getD L.bucket VecBuffer.empty).data.getD
    (j * L.width + L.lane) 0

/-- Well-formedness: the bucket lists have exactly the sizes computed by
`getNumOfVecBuffersUsedByInterleavedBuffer` and every bucket holds
`numSamples` vector elements.  Established by the constructor (for a
non-zero channel count) and maintained by the mutators. -/
structure InterleavedBuffer.WF (buf : InterleavedBuffer α) : Prop where
  len8 : buf.buffers8.length = (layoutOf buf.cfg buf.numChannels).num8
  len4 : buf.buffers4.length = (layoutOf buf.cfg buf.numChannels).num4
  len2 : buf.buffers2.length = (layoutOf buf.cfg buf.numChannels).num2
  dat8 : ∀ b ∈ buf.buffers8, b.data.length = buf.numSamples * 8
  dat4 : ∀ b ∈ buf.buffers4, b.data.length = buf.numSamples * 4
  dat2 : ∀ b ∈ buf.buffers2, b.data.length = buf.numSamples * 2

/-- Allocation-freedom between two buffer states: no bucket's reserved
capacity grew and no bucket list changed shape.  (`std::vector` allocates
exactly when its capacity must grow.) -/
def allocSame (a b : InterleavedBuffer α) : Prop :=
  a.buffers8.map VecBuffer.scalarCap = b.buffers8.map VecBuffer.scalarCap ∧
  a.buffers4.map VecBuffer.scalarCap = b.buffers4.map VecBuffer.scalarCap ∧
  a.buffers2.map VecBuffer.scalarCap = b.buffers2.map VecBuffer.scalarCap

/-- The widths of the bucket groups that a call `interleave(_, nIC, _)`
actually writes at least one channel into, for a well-formed buffer with
channel count `numChannels`: the 2-group runs first and writes whenever it
has a bucket, the 4-group writes unless the 2-group already consumed all
input channels, the 8-group writes unless the 4-group (which holds at most
one bucket of 4 channels when an 8-group exists) finished the job. -/
def writtenWidths (cfg : Cfg) (numChannels nIC : Nat) : List Nat :=
  let k := layoutOf cfg numChannels
  (if 0 < k.num2 ∧ 0 < nIC then [2] else []) ++
  (if 0 < k.num4 ∧ (if 0 < k.num2 then 2 else 0) < nIC then [4] else []) ++
  (if 0 < k.num8 ∧
      (if 0 < k.num4 then 4 else if 0 < k.num2 then 2 else 0) < nIC
    then [8] else [])

/-- `2^32`, for the `uint32_t` wrap-around arithmetic in `copyFrom`. -/
def U32 : Nat := 4294967296

/-- One width group of `InterleavedBuffer::copyFrom` (lines 683-728): copy
`w * numSamples` scalars of each bucket from `srcs` into the destination,
decrement the *unsigned* channel counter by `w` (wrapping modulo `2^32`),
and return as soon as it reaches 0 (`numChannelsToCopy <= 0` on a
`uint32_t` means `== 0`). -/
def copyFromLoop (w ns : Nat) (srcs : List (VecBuffer α)) :
    Nat → Nat → List (VecBuffer α) → Nat → LoopOut (List (VecBuffer α))
  | 0, _, dsts, counter => ⟨dsts, counter, false⟩
  | fuel + 1, i, dsts, counter =>
    let src := srcs.getD i VecBuffer.empty
    let dst := dsts.getD i VecBuffer.empty
    let dsts1 := dsts.set i
      { dst with data := src.data.take (w * ns) ++ dst.data.drop (w * ns) }
    let counter1 := (counter + U32 - w) % U32
    if counter1 = 0 then ⟨dsts1, counter1, true⟩
    else copyFromLoop w ns srcs fuel (i + 1) dsts1 counter1

/-- `InterleavedBuffer::copyFrom(other, numSamplesToCopy, numChannelsToCopy)`
(lines 683-728).  The initial `if (numChannelsToCopy < 0)` test is dead code
for an unsigned counter and `numSamplesToCopy` is only used by assertions;
each group copies `width * numSamples` scalars per bucket (the member
`numSamples`, not `numSamplesToCopy`). -/
def InterleavedBuffer.copyFrom (buf other : InterleavedBuffer α)
    (numSamplesToCopy numChannelsToCopy : Nat) : InterleavedBuffer α :=
  let _ := numSamplesToCopy
  let c0 := numChannelsToCopy % U32
  let g8 :=
    if buf.cfg.vec8 = true then
      copyFromLoop 8 buf.numSamples other.buffers8 buf.buffers8.length 0
        buf.buffers8 c0
    else ⟨buf.buffers8, c0, false⟩
  let buf1 := { buf with buffers8 := g8.st }
  if g8.done then buf1
  else
    let g4 :=
      if buf.cfg.vec4 = true then
        copyFromLoop 4 buf.numSamples other.buffers4 buf1.buffers4.length 0
          buf1.buffers4 g8.processed
      else ⟨buf1.buffers4, g8.processed, false⟩
    let buf2 := { buf1 with buffers4 := g4.st }
    if g4.done then buf2
    else
      let g2 :=
        if buf.cfg.vec2 = true then
          copyFromLoop 2 buf.numSamples other.buffers2 buf2.buffers2.length 0
            buf2.buffers2 g4.processed
        else ⟨buf2.buffers2, g4.processed, false⟩
      { buf2 with buffers2 := g2.st }

/-- Every bucket's reserved capacity covers the buffer's `capacity`
(what `reserve` establishes on the buckets present when it grows). -/
def bucketsReserved (buf : InterleavedBuffer α) : Prop :=
  (∀ b ∈ buf.buffers8, buf.capacity * 8 ≤ b.scalarCap) ∧
  (∀ b ∈ buf.buffers4, buf.capacity * 4 ≤ b.scalarCap) ∧
  (∀ b ∈ buf.buffers2, buf.capacity * 2 ≤ b.scalarCap)

instance {α : Type} (a b : InterleavedBuffer α) : Decidable (allocSame a b) := by
  unfold allocSame; infer_instance

/-- Cache-line alignment of `aligned_vector` (Alignment.hpp line 34). -/
def CACHE_ALIGNMENT : Nat := 64

/-- The byte address of scalar element `idx` of a buffer whose storage
starts at byte address `base`, for element size `es`. -/
def elemAddr (base es idx : Nat) : Nat := base + es * idx

/-- `boost::alignment::is_aligned(ptr, bytes)`. -/
def IsAligned (addr bytes : Nat) : Prop := addr % bytes = 0

instance (addr bytes : Nat) : Decidable (IsAligned addr bytes) := by
  unfold IsAligned; infer_instance

/-- The planar input of the spec's concrete scenario: 10 channels of 4
samples, channel `i` sample `j` holding `i*4+j` (values 0..39). -/
def exInput : List (List Int) :=
  (List.range 10).map (fun i => (List.range 4).map (fun j => (i * 4 + j : Int)))

/-- A fresh 10-by-4 planar destination (all entries distinct from the
input values, so the copy is observable). -/
def exFresh : List (List Int) :=
  (List.range 10).map (fun _ => (List.range 4).map (fun _ => (-1 : Int)))

/-- The body of one iteration of an `interleave` group loop: write the
next `min w (nIC - p0)` input channels into bucket `b0`. -/
def stepBufs (w : Nat) (X : List (List α)) (nIC nIS b0 : Nat)
    (bufs : List (VecBuffer α)) (p0 : Nat) : List (VecBuffer α) :=
  bufs.set b0 { bufs.getD b0 VecBuffer.empty with
    data := writeChannels w X nIS p0 (min w (nIC - p0))
      (bufs.getD b0 VecBuffer.empty).data }

/-- The body of one iteration of a `deinterleave` group loop: read the
next `min w (nOC - p0)` output channels out of bucket `b0`. -/
def stepOut (w : Nat) (bufs : List (VecBuffer α)) (nOC nOS b0 : Nat)
    (out : List (List α)) (p0 : Nat) : List (List α) :=
  readChannels w (bufs.getD b0 VecBuffer.empty).data nOS p0
    (min w (nOC - p0)) out

end Avec
namespace Avec
set_option linter.unusedSectionVars false
variable {α : Type} [Zero α]

theorem getD_set {β : Type} (l : List β) (i j : Nat) (x d : β) :
    (l.set i x).getD j d = if i = j ∧ j < l.length then x else l.getD j d := by
  rw [List.getD_eq_getElem?_getD, List.getD_eq_getElem?_getD, List.getElem?_set]
  by_cases h1 : i = j
  · subst h1
    by_cases h2 : i < l.length
    · simp [h2]
    · simp [h2, List.getElem?_eq_none (show l.length ≤ i by omega)]
  · simp [h1]

theorem getD_replicate {β : Type} (n j : Nat) (x d : β) :
    (List.replicate n x).getD j d = if j < n then x else d := by
  rw [List.getD_eq_getElem?_getD, List.getElem?_replicate]
  split <;> rfl

theorem listResize_nil {β : Type} (n : Nat) (pad : β) :
    listResize ([] : List β) n pad = List.replicate n pad := by
  simp [listResize]

theorem ofWidth_two (k : BufCounts) : k.ofWidth 2 = k.num2 := rfl

theorem ofWidth_four (k : BufCounts) : k.ofWidth 4 = k.num4 := rfl

theorem ofWidth_eight (k : BufCounts) : k.ofWidth 8 = k.num8 := rfl

theorem layout84_num2 (cfg : Cfg) (h8 : cfg.vec8 = true) (c : Nat) :
    (layoutOf cfg c).num2 = 0 := by
  simp only [layoutOf, getNumOfVecBuffersUsedByInterleavedBuffer, h8, if_true]
  split <;> rfl

theorem layout84_num4 (cfg : Cfg) (h8 : cfg.vec8 = true) (c : Nat) :
    (layoutOf cfg c).num4 =
      if c ≤ 4 then 1 else if 0 < c % 8 ∧ c % 8 ≤ 4 then 1 else 0 := by
  simp only [layoutOf, getNumOfVecBuffersUsedByInterleavedBuffer, h8, if_true]
  split <;> rfl

theorem layout84_num8 (cfg : Cfg) (h8 : cfg.vec8 = true) (c : Nat) :
    (layoutOf cfg c).num8 =
      if c ≤ 4 then 0 else c / 8 + if 4 < c % 8 then 1 else 0 := by
  simp only [layoutOf, getNumOfVecBuffersUsedByInterleavedBuffer, h8, if_true]
  split <;> rfl

theorem layout42_num2 (cfg : Cfg) (h8 : cfg.vec8 = false) (h4 : cfg.vec4 = true)
    (h2 : cfg.vec2 = true) (c : Nat) :
    (layoutOf cfg c).num2 =
      if c ≤ 2 then 1 else if 0 < c % 4 ∧ c % 4 ≤ 2 then 1 else 0 := by
  simp only [layoutOf, getNumOfVecBuffersUsedByInterleavedBuffer, h8, h4, h2,
    Bool.false_eq_true, if_false, if_true]
  split <;> rfl

theorem layout42_num4 (cfg : Cfg) (h8 : cfg.vec8 = false) (h4 : cfg.vec4 = true)
    (h2 : cfg.vec2 = true) (c : Nat) :
    (layoutOf cfg c).num4 =
      if c ≤ 2 then 0 else c / 4 + if 2 < c % 4 then 1 else 0 := by
  simp only [layoutOf, getNumOfVecBuffersUsedByInterleavedBuffer, h8, h4, h2,
    Bool.false_eq_true, if_false, if_true]
  split <;> rfl

theorem layout42_num8 (cfg : Cfg) (h8 : cfg.vec8 = false) (h4 : cfg.vec4 = true)
    (h2 : cfg.vec2 = true) (c : Nat) :
    (layoutOf cfg c).num8 = 0 := by
  simp only [layoutOf, getNumOfVecBuffersUsedByInterleavedBuffer, h8, h4, h2,
    Bool.false_eq_true, if_false, if_true]
  split <;> rfl

theorem layout4_eq (cfg : Cfg) (h8 : cfg.vec8 = false) (h4 : cfg.vec4 = true)
    (h2 : cfg.vec2 = false) (c : Nat) :
    layoutOf cfg c = ⟨0, c / 4 + if 0 < c % 4 then 1 else 0, 0⟩ := by
  simp [layoutOf, getNumOfVecBuffersUsedByInterleavedBuffer, h8, h4, h2]

theorem layout2_eq (cfg : Cfg) (h8 : cfg.vec8 = false) (h4 : cfg.vec4 = false)
    (c : Nat) :
    layoutOf cfg c = ⟨c / 2 + if 0 < c % 2 then 1 else 0, 0, 0⟩ := by
  simp [layoutOf, getNumOfVecBuffersUsedByInterleavedBuffer, h8, h4]

theorem doAt84 (cfg : Cfg) (h8 : cfg.vec8 = true) (len2 len4 ch : Nat) :
    doAtChannel cfg len2 len4 ch =
      if 0 < len4 then
        if ch < 4 then ⟨4, 0, ch⟩ else ⟨8, (ch - 4) / 8, (ch - 4) % 8⟩
      else ⟨8, ch / 8, ch % 8⟩ := by
  simp [doAtChannel, h8]

theorem doAt42 (cfg : Cfg) (h8 : cfg.vec8 = false) (h4 : cfg.vec4 = true)
    (h2 : cfg.vec2 = true) (len2 len4 ch : Nat) :
    doAtChannel cfg len2 len4 ch =
      if 0 < len2 then
        if ch < 2 then ⟨2, 0, ch⟩ else ⟨4, (ch - 2) / 4, (ch - 2) % 4⟩
      else ⟨4, ch / 4, ch % 4⟩ := by
  simp [doAtChannel, h8, h4, h2]

theorem doAt4 (cfg : Cfg) (h8 : cfg.vec8 = false) (h4 : cfg.vec4 = true)
    (h2 : cfg.vec2 = false) (len2 len4 ch : Nat) :
    doAtChannel cfg len2 len4 ch = ⟨4, ch / 4, ch % 4⟩ := by
  simp [doAtChannel, h8, h4, h2]

theorem doAt2 (cfg : Cfg) (h8 : cfg.vec8 = false) (h4 : cfg.vec4 = false)
    (len2 len4 ch : Nat) :
    doAtChannel cfg len2 len4 ch = ⟨2, ch / 2, ch % 2⟩ := by
  simp [doAtChannel, h8, h4]

theorem reserve_of_le (buf : InterleavedBuffer α) (n : Nat)
    (h : n ≤ buf.capacity) : buf.reserve n = buf := by
  unfold InterleavedBuffer.reserve
  rw [if_pos h]

theorem mk_eq (cfg : Cfg) (c s : Nat) (hc : 1 ≤ c) :
    (mkInterleavedBuffer cfg c s : InterleavedBuffer α) =
      ⟨cfg,
        List.replicate (layoutOf cfg c).num8 ⟨List.replicate (s * 8) 0, s * 8⟩,
        List.replicate (layoutOf cfg c).num4 ⟨List.replicate (s * 4) 0, s * 4⟩,
        List.replicate (layoutOf cfg c).num2 ⟨List.replicate (s * 2) 0, s * 2⟩,
        c, s, s⟩ := by
  have h0 : ¬ ((0 : Nat) = c) := by omega
  simp only [mkInterleavedBuffer, InterleavedBuffer.setNumChannels, if_neg h0]
  simp only [InterleavedBuffer.reserve, le_refl, if_pos, if_true]
  simp only [InterleavedBuffer.setNumSamples, InterleavedBuffer.reserve,
    le_refl, if_pos, if_true]
  simp only [listResize_nil, List.map_replicate, VecBuffer.setNumSamples,
    VecBuffer.empty, listResize, List.take_nil, List.length_nil, Nat.sub_zero,
    List.nil_append, Nat.zero_max, layoutOf]

theorem mk_WF (cfg : Cfg) (c s : Nat) (hc : 1 ≤ c) :
    (mkInterleavedBuffer cfg c s : InterleavedBuffer α).WF := by
  rw [mk_eq cfg c s hc]
  refine ⟨by simp, by simp, by simp, ?_, ?_, ?_⟩ <;>
    (intro b hb
     rw [List.eq_of_mem_replicate hb]
     simp [Nat.mul_comm])

/-- Claim C2: bucket-layout policy.  For either largest/next width pair
(8/4 when 8-wide registers exist, else 4/2 when both exist): a channel
count `c ≤ w` yields exactly one width-`w` bucket and no width-`W`
buckets, with every channel at lane `ch` of that bucket; with
`q = c / W`, `r = c % W`, if `0 < r ≤ w` there are `q` width-`W` buckets
plus one width-`w` bucket holding channels `[0, w)`, channel `ch ≥ w`
living at bucket `(ch - w) / W`, lane `(ch - w) % W`; otherwise there
are `q + (if 0 < r then 1 else 0)` width-`W` buckets only, channel `ch`
at bucket `ch / W`, lane `ch % W`. -/
theorem claim2 (cfg : Cfg) (W w : Nat) (hv : cfg.valid)
    (hWw : (cfg.vec8 = true ∧ W = 8 ∧ w = 4) ∨
      (cfg.vec8 = false ∧ cfg.vec4 = true ∧ cfg.vec2 = true ∧ W = 4 ∧ w = 2))
    (c : Nat) :
    (c ≤ w → (layoutOf cfg c).ofWidth w = 1 ∧ (layoutOf cfg c).ofWidth W = 0 ∧
      ∀ ch, ch < c →
        doAtChannel cfg (layoutOf cfg c).num2 (layoutOf cfg c).num4 ch =
          ⟨w, 0, ch⟩) ∧
    (w < c → 0 < c % W → c % W ≤ w →
      (layoutOf cfg c).ofWidth W = c / W ∧ (layoutOf cfg c).ofWidth w = 1 ∧
      ∀ ch, ch < c →
        doAtChannel cfg (layoutOf cfg c).num2 (layoutOf cfg c).num4 ch =
          if ch < w then ⟨w, 0, ch⟩
          else ⟨W, (ch - w) / W, (ch - w) % W⟩) ∧
    (w < c → (c % W = 0 ∨ w < c % W) →
      (layoutOf cfg c).ofWidth W = c / W + (if 0 < c % W then 1 else 0) ∧
      (layoutOf cfg c).ofWidth w = 0 ∧
      ∀ ch, ch < c →
        doAtChannel cfg (layoutOf cfg c).num2 (layoutOf cfg c).num4 ch =
          ⟨W, ch / W, ch % W⟩) := by
  rcases hWw with ⟨h8, hW, hw⟩ | ⟨h8, h4, h2, hW, hw⟩ <;> subst hW <;> subst hw
  · refine ⟨fun hcw => ⟨?_, ?_, fun ch hch => ?_⟩,
      fun hcw hr0 hrw => ⟨?_, ?_, fun ch hch => ?_⟩,
      fun hcw hr => ⟨?_, ?_, fun ch hch => ?_⟩⟩
    · rw [ofWidth_four, layout84_num4 cfg h8, if_pos hcw]
    · rw [ofWidth_eight, layout84_num8 cfg h8, if_pos hcw]
    · rw [doAt84 cfg h8, layout84_num4 cfg h8, if_pos hcw,
        if_pos (show (0:Nat) < 1 by omega), if_pos (show ch < 4 by omega)]
    · rw [ofWidth_eight, layout84_num8 cfg h8,
        if_neg (show ¬ c ≤ 4 by omega),
        if_neg (show ¬ 4 < c % 8 by omega)]
      omega
    · rw [ofWidth_four, layout84_num4 cfg h8,
        if_neg (show ¬ c ≤ 4 by omega),
        if_pos (show 0 < c % 8 ∧ c % 8 ≤ 4 from ⟨hr0, hrw⟩)]
    · rw [doAt84 cfg h8, layout84_num4 cfg h8,
        if_neg (show ¬ c ≤ 4 by omega),
        if_pos (show 0 < c % 8 ∧ c % 8 ≤ 4 from ⟨hr0, hrw⟩),
        if_pos (show (0:Nat) < 1 by omega)]
    · rw [ofWidth_eight, layout84_num8 cfg h8,
        if_neg (show ¬ c ≤ 4 by omega)]
      split_ifs <;> omega
    · rw [ofWidth_four, layout84_num4 cfg h8,
        if_neg (show ¬ c ≤ 4 by omega),
        if_neg (show ¬ (0 < c % 8 ∧ c % 8 ≤ 4) by omega)]
    · rw [doAt84 cfg h8, layout84_num4 cfg h8,
        if_neg (show ¬ c ≤ 4 by omega),
        if_neg (show ¬ (0 < c % 8 ∧ c % 8 ≤ 4) by omega),
        if_neg (show ¬ ((0:Nat) < 0) by omega)]
  · refine ⟨fun hcw => ⟨?_, ?_, fun ch hch => ?_⟩,
      fun hcw hr0 hrw => ⟨?_, ?_, fun ch hch => ?_⟩,
      fun hcw hr => ⟨?_, ?_, fun ch hch => ?_⟩⟩
    · rw [ofWidth_two, layout42_num2 cfg h8 h4 h2, if_pos hcw]
    · rw [ofWidth_four, layout42_num4 cfg h8 h4 h2, if_pos hcw]
    · rw [doAt42 cfg h8 h4 h2, layout42_num2 cfg h8 h4 h2, if_pos hcw,
        if_pos (show (0:Nat) < 1 by omega), if_pos (show ch < 2 by omega)]
    · rw [ofWidth_four, layout42_num4 cfg h8 h4 h2,
        if_neg (show ¬ c ≤ 2 by omega),
        if_neg (show ¬ 2 < c % 4 by omega)]
      omega
    · rw [ofWidth_two, layout42_num2 cfg h8 h4 h2,
        if_neg (show ¬ c ≤ 2 by omega),
        if_pos (show 0 < c % 4 ∧ c % 4 ≤ 2 from ⟨hr0, hrw⟩)]
    · rw [doAt42 cfg h8 h4 h2, layout42_num2 cfg h8 h4 h2,
        if_neg (show ¬ c ≤ 2 by omega),
        if_pos (show 0 < c % 4 ∧ c % 4 ≤ 2 from ⟨hr0, hrw⟩),
        if_pos (show (0:Nat) < 1 by omega)]
    · rw [ofWidth_four, layout42_num4 cfg h8 h4 h2,
        if_neg (show ¬ c ≤ 2 by omega)]
      split_ifs <;> omega
    · rw [ofWidth_two, layout42_num2 cfg h8 h4 h2,
        if_neg (show ¬ c ≤ 2 by omega),
        if_neg (show ¬ (0 < c % 4 ∧ c % 4 ≤ 2) by omega)]
    · rw [doAt42 cfg h8 h4 h2, layout42_num2 cfg h8 h4 h2,
        if_neg (show ¬ c ≤ 2 by omega),
        if_neg (show ¬ (0 < c % 4 ∧ c % 4 ≤ 2) by omega),
        if_neg (show ¬ ((0:Nat) < 0) by omega)]

/-- Claim C8: lane-waste bound.  For every valid configuration and
channel count `c`, the total allocated lanes cover `c`, exceed it by
less than the largest available width, and by less than the companion
width `w` whenever the remainder-bucket branch of the policy is
taken. -/
theorem claim8 (cfg : Cfg) (hv : cfg.valid) (c : Nat) :
    c ≤ totalLanes cfg c ∧
    totalLanes cfg c - c < cfg.maxWidth ∧
    (∀ W w : Nat,
      ((cfg.vec8 = true ∧ W = 8 ∧ w = 4) ∨
        (cfg.vec8 = false ∧ cfg.vec4 = true ∧ cfg.vec2 = true ∧
          W = 4 ∧ w = 2)) →
      w < c → 0 < c % W → c % W ≤ w → totalLanes cfg c - c < w) := by
  rcases hv with rfl | rfl | rfl | rfl | rfl
  · rw [show Cfg.maxWidth cfgFloatAvx = 8 from rfl]
    simp only [totalLanes, layout84_num2 cfgFloatAvx rfl,
      layout84_num4 cfgFloatAvx rfl, layout84_num8 cfgFloatAvx rfl]
    refine ⟨?_, ?_, fun W w hWw h1 h2 h3 => ?_⟩
    · split_ifs <;> omega
    · split_ifs <;> omega
    · rcases hWw with ⟨h8, rfl, rfl⟩ | ⟨h8, _, _, _, _⟩
      · split_ifs <;> omega
      · exact absurd h8 (by decide)
  · rw [show Cfg.maxWidth cfgFloatSse = 4 from rfl]
    simp only [totalLanes, layout4_eq cfgFloatSse rfl rfl rfl]
    refine ⟨?_, ?_, fun W w hWw h1 h2 h3 => ?_⟩
    · split_ifs <;> omega
    · split_ifs <;> omega
    · rcases hWw with ⟨h8, _, _⟩ | ⟨_, _, h2, _, _⟩
      · exact absurd h8 (by decide)
      · exact absurd h2 (by decide)
  · rw [show Cfg.maxWidth cfgDoubleAvx512 = 8 from rfl]
    simp only [totalLanes, layout84_num2 cfgDoubleAvx512 rfl,
      layout84_num4 cfgDoubleAvx512 rfl, layout84_num8 cfgDoubleAvx512 rfl]
    refine ⟨?_, ?_, fun W w hWw h1 h2 h3 => ?_⟩
    · split_ifs <;> omega
    · split_ifs <;> omega
    · rcases hWw with ⟨h8, rfl, rfl⟩ | ⟨h8, _, _, _, _⟩
      · split_ifs <;> omega
      · exact absurd h8 (by decide)
  · rw [show Cfg.maxWidth cfgDoubleAvx = 4 from rfl]
    simp only [totalLanes, layout42_num2 cfgDoubleAvx rfl rfl rfl,
      layout42_num4 cfgDoubleAvx rfl rfl rfl,
      layout42_num8 cfgDoubleAvx rfl rfl rfl]
    refine ⟨?_, ?_, fun W w hWw h1 h2 h3 => ?_⟩
    · split_ifs <;> omega
    · split_ifs <;> omega
    · rcases hWw with ⟨h8, _, _⟩ | ⟨h8, h4, hh2, rfl, rfl⟩
      · exact absurd h8 (by decide)
      · split_ifs <;> omega
  · rw [show Cfg.maxWidth cfgDoubleSse = 2 from rfl]
    simp only [totalLanes, layout2_eq cfgDoubleSse rfl rfl]
    refine ⟨?_, ?_, fun W w hWw h1 h2 h3 => ?_⟩
    · split_ifs <;> omega
    · split_ifs <;> omega
    · rcases hWw with ⟨h8, _, _⟩ | ⟨_, h4, _, _, _⟩
      · exact absurd h8 (by decide)
      · exact absurd h4 (by decide)

theorem reserve_capacity_mono (buf : InterleavedBuffer α) (n : Nat) :
    buf.capacity ≤ (buf.reserve n).capacity := by
  unfold InterleavedBuffer.reserve
  split
  · exact le_rfl
  · rename_i h
    show buf.capacity ≤ n
    omega

theorem reserve_capacity_ge (buf : InterleavedBuffer α) (n : Nat) :
    n ≤ (buf.reserve n).capacity := by
  unfold InterleavedBuffer.reserve
  split
  · rename_i h
    exact h
  · exact le_rfl

theorem setNumSamples_capacity (buf : InterleavedBuffer α) (n : Nat) :
    (buf.setNumSamples n).capacity =
      (InterleavedBuffer.reserve { buf with numSamples := n } n).capacity := rfl

theorem setNumSamples_capacity_mono (buf : InterleavedBuffer α) (n : Nat) :
    buf.capacity ≤ (buf.setNumSamples n).capacity := by
  rw [setNumSamples_capacity]
  exact reserve_capacity_mono { buf with numSamples := n } n

theorem setNumSamples_capacity_ge (buf : InterleavedBuffer α) (n : Nat) :
    n ≤ (buf.setNumSamples n).capacity := by
  rw [setNumSamples_capacity]
  exact reserve_capacity_ge { buf with numSamples := n } n

theorem setNumChannels_capacity_mono (buf : InterleavedBuffer α) (n : Nat) :
    buf.capacity ≤ (buf.setNumChannels n).capacity := by
  have key : ∀ (x : InterleavedBuffer α) (m k : Nat),
      buf.capacity = x.capacity →
      buf.capacity ≤ ((x.reserve m).setNumSamples k).capacity := fun x m k he =>
    le_trans (le_of_eq he) (le_trans (reserve_capacity_mono x m)
      (setNumSamples_capacity_mono (x.reserve m) k))
  simp only [InterleavedBuffer.setNumChannels]
  split
  · exact le_rfl
  · exact key _ _ _ rfl

theorem fill_capacity (buf : InterleavedBuffer α) (v : α) :
    (buf.fill v).capacity = buf.capacity := rfl

theorem fillStep_capacity (buf : InterleavedBuffer α) (nIC : Nat) :
    (buf.fillStep nIC).capacity = buf.capacity := by
  unfold InterleavedBuffer.fillStep
  split_ifs <;> rfl

theorem interleave_capacity (buf : InterleavedBuffer α) (X : List (List α))
    (nIC nIS : Nat) : (buf.interleave X nIC nIS).1.capacity = buf.capacity := by
  simp only [InterleavedBuffer.interleave]
  split_ifs <;> exact fillStep_capacity buf nIC

theorem copyFrom_capacity (buf other : InterleavedBuffer α) (a b : Nat) :
    (buf.copyFrom other a b).capacity = buf.capacity := by
  simp only [InterleavedBuffer.copyFrom]
  split_ifs <;> rfl

theorem setNumSamples_capacity_of_le (buf : InterleavedBuffer α) (n : Nat)
    (hn : n ≤ buf.capacity) : (buf.setNumSamples n).capacity = buf.capacity := by
  rw [setNumSamples_capacity,
    reserve_of_le ({ buf with numSamples := n }) n hn]

theorem setNumSamples_allocSame (buf : InterleavedBuffer α) (n : Nat)
    (hn : n ≤ buf.capacity) (hres : bucketsReserved buf) :
    allocSame buf (buf.setNumSamples n) := by
  obtain ⟨h8, h4, h2⟩ := hres
  unfold InterleavedBuffer.setNumSamples
  rw [reserve_of_le ({ buf with numSamples := n }) n hn]
  refine ⟨?_, ?_, ?_⟩
  · show buf.buffers8.map _ = (buf.buffers8.map _).map _
    rw [List.map_map]
    refine (List.map_congr_left ?_)
    intro b hb
    show b.scalarCap = max b.scalarCap (n * 8)
    have := h8 b hb
    omega
  · show buf.buffers4.map _ = (buf.buffers4.map _).map _
    rw [List.map_map]
    refine (List.map_congr_left ?_)
    intro b hb
    show b.scalarCap = max b.scalarCap (n * 4)
    have := h4 b hb
    omega
  · show buf.buffers2.map _ = (buf.buffers2.map _).map _
    rw [List.map_map]
    refine (List.map_congr_left ?_)
    intro b hb
    show b.scalarCap = max b.scalarCap (n * 2)
    have := h2 b hb
    omega

/-- Claim C9 (corrected): capacity never shrinks.  `getCapacity()` is
non-decreasing under `reserve`, `setNumSamples`, `setNumChannels`, and
unchanged by `fill`, `interleave` and `copyFrom`; after
`setNumSamples 128` then `setNumSamples 32` it is at least 128;
`reserve n` with `n ≤ capacity` is the identity and `setNumSamples n`
with `n ≤ capacity` keeps the capacity.  But `setNumSamples n` with
`n ≤ capacity` is allocation-free only when every bucket's reserved
storage already covers the capacity (`bucketsReserved`) — buckets
created by a later `setNumChannels` violate this, see the
counterexample. -/
theorem claim9 :
    (∀ (buf : InterleavedBuffer α) (n : Nat),
      buf.capacity ≤ (buf.reserve n).capacity) ∧
    (∀ (buf : InterleavedBuffer α) (n : Nat),
      buf.capacity ≤ (buf.setNumSamples n).capacity) ∧
    (∀ (buf : InterleavedBuffer α) (n : Nat),
      buf.capacity ≤ (buf.setNumChannels n).capacity) ∧
    (∀ (buf : InterleavedBuffer α) (v : α),
      (buf.fill v).capacity = buf.capacity) ∧
    (∀ (buf : InterleavedBuffer α) (X : List (List α)) (nIC nIS : Nat),
      (buf.interleave X nIC nIS).1.capacity = buf.capacity) ∧
    (∀ (buf other : InterleavedBuffer α) (a b : Nat),
      (buf.copyFrom other a b).capacity = buf.capacity) ∧
    (∀ buf : InterleavedBuffer α,
      128 ≤ ((buf.setNumSamples 128).setNumSamples 32).capacity) ∧
    (∀ (buf : InterleavedBuffer α) (n : Nat),
      n ≤ buf.capacity → buf.reserve n = buf) ∧
    (∀ (buf : InterleavedBuffer α) (n : Nat),
      n ≤ buf.capacity → (buf.setNumSamples n).capacity = buf.capacity) ∧
    (∀ (buf : InterleavedBuffer α) (n : Nat),
      n ≤ buf.capacity → bucketsReserved buf →
        allocSame buf (buf.setNumSamples n)) :=
  ⟨reserve_capacity_mono, setNumSamples_capacity_mono,
   setNumChannels_capacity_mono, fill_capacity, interleave_capacity,
   copyFrom_capacity,
   fun buf => le_trans (setNumSamples_capacity_ge buf 128)
     (setNumSamples_capacity_mono _ 32),
   reserve_of_le, setNumSamples_capacity_of_le, setNumSamples_allocSame⟩

theorem claim9_counterexample :
    3 ≤ (((mkInterleavedBuffer cfgFloatAvx 2 1 : InterleavedBuffer
        Int).reserve 4).setNumChannels 5).capacity ∧
    ¬ allocSame
      (((mkInterleavedBuffer cfgFloatAvx 2 1 : InterleavedBuffer
          Int).reserve 4).setNumChannels 5)
      ((((mkInterleavedBuffer cfgFloatAvx 2 1 : InterleavedBuffer
          Int).reserve 4).setNumChannels 5).setNumSamples 3) := by decide

/-- Claim C10: frame property of `setNumChannels`.  On the concrete
trace `InterleavedBuffer(2, 1)`, `reserve 4`, `setNumChannels 10`:
`numSamples` and `getCapacity()` are indeed unchanged (and equal 1 and
4), but the claim that every bucket afterwards has at least the
buffer's capacity fails: the freshly created width-8 bucket has scalar
capacity 8 (one vector element), not `capacity * 8 = 32`, because the
`reserve(capacity)` call inside `setNumChannels` always hits the
`capacity >= value` early return and never grows the new buckets. -/
theorem claim10 :
    ((((mkInterleavedBuffer cfgFloatAvx 2 1 : InterleavedBuffer
        Int).reserve 4).setNumChannels 10)).numSamples =
      ((mkInterleavedBuffer cfgFloatAvx 2 1 : InterleavedBuffer
        Int).reserve 4).numSamples ∧
    ((((mkInterleavedBuffer cfgFloatAvx 2 1 : InterleavedBuffer
        Int).reserve 4).setNumChannels 10)).capacity =
      ((mkInterleavedBuffer cfgFloatAvx 2 1 : InterleavedBuffer
        Int).reserve 4).capacity ∧
    ((((mkInterleavedBuffer cfgFloatAvx 2 1 : InterleavedBuffer
        Int).reserve 4).setNumChannels 10)).capacity = 4 ∧
    (((((mkInterleavedBuffer cfgFloatAvx 2 1 : InterleavedBuffer
        Int).reserve 4).setNumChannels 10)).buffers8.getD 0
        VecBuffer.empty).scalarCap = 8 := by decide

theorem lane_decomp (w : Nat) (hw : 0 < w) (j i : Nat) (hi : i < w) :
    (j * w + i) % w = i ∧ (j * w + i) / w = j := by
  constructor
  · rw [Nat.add_comm, Nat.add_mul_mod_self_right]
    exact Nat.mod_eq_of_lt hi
  · rw [Nat.add_comm, Nat.add_mul_div_right _ _ hw, Nat.div_eq_of_lt hi,
      Nat.zero_add]

theorem lane_inj (w : Nat) (hw : 0 < w) (j i j' i' : Nat) (hi : i < w)
    (hi' : i' < w) (he : j * w + i = j' * w + i') : j = j' ∧ i = i' := by
  have h1 := (lane_decomp w hw j i hi).1
  have h2 := (lane_decomp w hw j i hi).2
  rw [he, (lane_decomp w hw j' i' hi').1] at h1
  rw [he, (lane_decomp w hw j' i' hi').2] at h2
  exact ⟨h2.symm, h1.symm⟩

theorem getD_map {β γ : Type} (f : β → γ) (l : List β) (i : Nat) (d : β)
    (d' : γ) :
    (l.map f).getD i d' = if i < l.length then f (l.getD i d) else d' := by
  rw [List.getD_eq_getElem?_getD, List.getElem?_map]
  by_cases h : i < l.length
  · simp [List.getElem?_eq_getElem h, h, List.getD_eq_getElem?_getD]
  · simp [List.getElem?_eq_none (by omega : l.length ≤ i), h]

theorem writeSamples_length (w i : Nat) (src : List α) (n : Nat)
    (data : List α) : (writeSamples w i src n data).length = data.length := by
  induction n with
  | zero => rfl
  | succ j ih => simp [writeSamples, ih]

theorem writeSamples_getD_miss (w i : Nat) (src : List α) (n : Nat)
    (data : List α) (m : Nat) (hm : ∀ j, j < n → m ≠ j * w + i) :
    (writeSamples w i src n data).getD m 0 = data.getD m 0 := by
  induction n with
  | zero => rfl
  | succ j ih =>
    show ((writeSamples w i src j data).set (j * w + i) (src.getD j 0)).getD
      m 0 = _
    rw [getD_set, if_neg (fun hx => hm j (by omega) hx.1.symm)]
    exact ih (fun j' hj' => hm j' (by omega))

theorem writeSamples_getD_hit (w i : Nat) (hw : 0 < w) (hi : i < w)
    (src : List α) (n : Nat) (data : List α) (j : Nat) (hj : j < n)
    (hlen : j * w + i < data.length) :
    (writeSamples w i src n data).getD (j * w + i) 0 = src.getD j 0 := by
  induction n with
  | zero => omega
  | succ j' ih =>
    show ((writeSamples w i src j' data).set (j' * w + i) (src.getD j' 0)).getD
      (j * w + i) 0 = _
    rw [getD_set]
    by_cases hjj : j = j'
    · subst hjj
      rw [if_pos ⟨rfl, by rw [writeSamples_length]; exact hlen⟩]
    · rw [if_neg (fun hx => hjj ((lane_inj w hw j' i j i hi hi hx.1).1.symm))]
      exact ih (by omega)

theorem writeChannels_length (w : Nat) (input : List (List α))
    (nIS p r : Nat) (data : List α) :
    (writeChannels w input nIS p r data).length = data.length := by
  induction r with
  | zero => rfl
  | succ i ih =>
    show (writeSamples w i _ nIS (writeChannels w input nIS p i data)).length = _
    rw [writeSamples_length, ih]

theorem writeChannels_getD_hit (w : Nat) (hw : 0 < w) (input : List (List α))
    (nIS p r : Nat) (data : List α) (i j : Nat) (hi : i < r) (hr : r ≤ w)
    (hj : j < nIS) (hlen : j * w + i < data.length) :
    (writeChannels w input nIS p r data).getD (j * w + i) 0 =
      (input.getD (i + p) []).getD j 0 := by
  induction r with
  | zero => omega
  | succ i' ih =>
    show (writeSamples w i' (input.getD (i' + p) []) nIS
      (writeChannels w input nIS p i' data)).getD (j * w + i) 0 = _
    by_cases hii : i = i'
    · subst hii
      rw [writeSamples_getD_hit w i hw (by omega) _ nIS _ j hj
        (by rw [writeChannels_length]; exact hlen)]
    · rw [writeSamples_getD_miss w i' _ nIS _ _
        (fun j' hj' hx => hii (lane_inj w hw j i j' i' (by omega) (by omega)
          hx).2)]
      exact ih (by omega) (by omega)

theorem writeChannels_getD_miss (w : Nat) (hw : 0 < w)
    (input : List (List α)) (nIS p r : Nat) (data : List α) (i j : Nat)
    (hi : i < w) (hr : r ≤ w) (hmiss : r ≤ i ∨ nIS ≤ j) :
    (writeChannels w input nIS p r data).getD (j * w + i) 0 =
      data.getD (j * w + i) 0 := by
  induction r with
  | zero => rfl
  | succ i' ih =>
    show (writeSamples w i' (input.getD (i' + p) []) nIS
      (writeChannels w input nIS p i' data)).getD (j * w + i) 0 = _
    rw [writeSamples_getD_miss w i' _ nIS _ _ (fun j' hj' hx => ?hne)]
    · exact ih (by omega) (by omega)
    case hne =>
      obtain ⟨hj1, hj2⟩ := lane_inj w hw j i j' i' hi (by omega) hx
      omega

theorem readSamples_length (w i : Nat) (bufData : List α) (n : Nat)
    (dst : List α) : (readSamples w i bufData n dst).length = dst.length := by
  induction n with
  | zero => rfl
  | succ j ih => simp [readSamples, ih]

theorem readSamples_getD_hit (w i : Nat) (bufData : List α) (n : Nat)
    (dst : List α) (j : Nat) (hj : j < n) (hlen : j < dst.length) :
    (readSamples w i bufData n dst).getD j 0 = bufData.getD (j * w + i) 0 := by
  induction n with
  | zero => omega
  | succ j' ih =>
    show ((readSamples w i bufData j' dst).set j'
      (bufData.getD (j' * w + i) 0)).getD j 0 = _
    rw [getD_set]
    by_cases hjj : j' = j
    · subst hjj
      rw [if_pos ⟨rfl, by rw [readSamples_length]; exact hlen⟩]
    · rw [if_neg (fun hx => hjj hx.1)]
      exact ih (by omega)

theorem readSamples_getD_miss (w i : Nat) (bufData : List α) (n : Nat)
    (dst : List α) (j : Nat) (hj : n ≤ j) :
    (readSamples w i bufData n dst).getD j 0 = dst.getD j 0 := by
  induction n with
  | zero => rfl
  | succ j' ih =>
    show ((readSamples w i bufData j' dst).set j'
      (bufData.getD (j' * w + i) 0)).getD j 0 = _
    rw [getD_set, if_neg (fun hx => by omega)]
    exact ih (by omega)

theorem readChannels_length (w : Nat) (bufData : List α) (nOS p r : Nat)
    (out : List (List α)) :
    (readChannels w bufData nOS p r out).length = out.length := by
  induction r with
  | zero => rfl
  | succ i ih =>
    show ((readChannels w bufData nOS p i out).set (i + p) _).length = _
    rw [List.length_set, ih]

theorem readChannels_getD_miss (w : Nat) (bufData : List α) (nOS p r : Nat)
    (out : List (List α)) (ch : Nat) (hch : ch < p ∨ p + r ≤ ch) :
    (readChannels w bufData nOS p r out).getD ch [] = out.getD ch [] := by
  induction r with
  | zero => rfl
  | succ i ih =>
    show ((readChannels w bufData nOS p i out).set (i + p) _).getD ch [] = _
    rw [getD_set, if_neg (fun hx => by omega)]
    exact ih (by omega)

theorem readChannels_getD_hit (w : Nat) (bufData : List α) (nOS p r : Nat)
    (out : List (List α)) (i : Nat) (hi : i < r) (hlen : i + p < out.length) :
    (readChannels w bufData nOS p r out).getD (i + p) [] =
      readSamples w i bufData nOS (out.getD (i + p) []) := by
  induction r with
  | zero => omega
  | succ i' ih =>
    show ((readChannels w bufData nOS p i' out).set (i' + p)
      (readSamples w i' bufData nOS
        ((readChannels w bufData nOS p i' out).getD (i' + p) []))).getD
      (i + p) [] = _
    rw [getD_set]
    by_cases hii : i = i'
    · subst hii
      rw [if_pos ⟨rfl, by rw [readChannels_length]; exact hlen⟩,
        readChannels_getD_miss w bufData nOS p i out (i + p) (by omega)]
    · rw [if_neg (fun hx => by omega)]
      exact ih (by omega)

/-- The bucket list after one iteration of a width-`w` interleave group
loop: bucket `b0` is overwritten with channels `[p0, p0 + min w (nIC-p0))`. -/
theorem stepBufs_length (w : Nat) (X : List (List α)) (nIC nIS b0 : Nat)
    (bufs : List (VecBuffer α)) (p0 : Nat) :
    (stepBufs w X nIC nIS b0 bufs p0).length = bufs.length :=
  List.length_set bufs b0 _

theorem stepBufs_getD_ne (w : Nat) (X : List (List α)) (nIC nIS b0 : Nat)
    (bufs : List (VecBuffer α)) (p0 : Nat) (k : Nat) (hk : k ≠ b0) :
    (stepBufs w X nIC nIS b0 bufs p0).getD k VecBuffer.empty =
      bufs.getD k VecBuffer.empty := by
  unfold stepBufs
  rw [getD_set, if_neg (fun hx => hk hx.1.symm)]

theorem stepBufs_getD_eq (w : Nat) (X : List (List α)) (nIC nIS b0 : Nat)
    (bufs : List (VecBuffer α)) (p0 : Nat) (hb0 : b0 < bufs.length) :
    (stepBufs w X nIC nIS b0 bufs p0).getD b0 VecBuffer.empty =
      { bufs.getD b0 VecBuffer.empty with
        data := writeChannels w X nIS p0 (min w (nIC - p0))
          (bufs.getD b0 VecBuffer.empty).data } := by
  unfold stepBufs
  rw [getD_set, if_pos ⟨rfl, hb0⟩]

theorem interleaveLoop_succ (w : Nat) (X : List (List α)) (nIC nIS : Nat)
    (steps b0 : Nat) (bufs : List (VecBuffer α)) (p0 : Nat) :
    interleaveLoop w X nIC nIS (steps + 1) b0 bufs p0 =
      if p0 + min w (nIC - p0) = nIC then
        ⟨stepBufs w X nIC nIS b0 bufs p0, p0 + min w (nIC - p0), true⟩
      else interleaveLoop w X nIC nIS steps (b0 + 1)
        (stepBufs w X nIC nIS b0 bufs p0) (p0 + min w (nIC - p0)) := rfl

theorem interleaveLoop_spec (w : Nat) (hw : 0 < w) (X : List (List α))
    (nIC nIS : Nat) :
    ∀ (steps b0 : Nat) (bufs : List (VecBuffer α)) (p0 : Nat),
      p0 < nIC → b0 + steps ≤ bufs.length →
      (interleaveLoop w X nIC nIS steps b0 bufs p0).st.length = bufs.length ∧
      (interleaveLoop w X nIC nIS steps b0 bufs p0).done =
        decide (nIC ≤ p0 + steps * w) ∧
      (interleaveLoop w X nIC nIS steps b0 bufs p0).processed =
        min nIC (p0 + steps * w) ∧
      (∀ k, k < b0 →
        (interleaveLoop w X nIC nIS steps b0 bufs p0).st.getD k
          VecBuffer.empty = bufs.getD k VecBuffer.empty) ∧
      (∀ t, t < steps → p0 + t * w < nIC →
        (interleaveLoop w X nIC nIS steps b0 bufs p0).st.getD (b0 + t)
            VecBuffer.empty =
          { bufs.getD (b0 + t) VecBuffer.empty with
            data := writeChannels w X nIS (p0 + t * w)
              (min w (nIC - (p0 + t * w)))
              (bufs.getD (b0 + t) VecBuffer.empty).data }) ∧
      (∀ k, b0 ≤ k → (k - b0 < steps → nIC ≤ p0 + (k - b0) * w) →
        (interleaveLoop w X nIC nIS steps b0 bufs p0).st.getD k
          VecBuffer.empty = bufs.getD k VecBuffer.empty) := by
  intro steps
  induction steps with
  | zero =>
    intro b0 bufs p0 hp hlen
    refine ⟨rfl, (decide_eq_false (by omega)).symm, by show p0 = _; omega,
      fun k hk => rfl, fun t ht => by omega, fun k hk hc => rfl⟩
  | succ steps ih =>
    intro b0 bufs p0 hp hlen
    have hsm : (steps + 1) * w = steps * w + w := Nat.succ_mul steps w
    have hb0 : b0 < bufs.length := by omega
    rw [interleaveLoop_succ]
    by_cases hdone : p0 + min w (nIC - p0) = nIC
    · rw [if_pos hdone]
      refine ⟨stepBufs_length w X nIC nIS b0 bufs p0, ?_, ?_, ?_, ?_, ?_⟩
      · exact (decide_eq_true (by omega)).symm
      · show p0 + min w (nIC - p0) = _
        omega
      · intro k hk
        exact stepBufs_getD_ne w X nIC nIS b0 bufs p0 k (by omega)
      · intro t ht hlt
        have ht0 : t = 0 := by
          rcases Nat.eq_zero_or_pos t with h | h
          · exact h
          · exact absurd hlt (by
              have := Nat.le_mul_of_pos_left w h
              omega)
        subst ht0
        rw [Nat.add_zero, stepBufs_getD_eq w X nIC nIS b0 bufs p0 hb0,
          show p0 + 0 * w = p0 by omega]
      · intro k hk hc
        by_cases hkb : k = b0
        · subst hkb
          have := hc (by omega)
          rw [Nat.sub_self, Nat.zero_mul, Nat.add_zero] at this
          omega
        · exact stepBufs_getD_ne w X nIC nIS b0 bufs p0 k hkb
    · rw [if_neg hdone]
      have hrww : min w (nIC - p0) = w := by omega
      have hp' : p0 + min w (nIC - p0) < nIC := by omega
      obtain ⟨L1, D1, P1, B1, H1, U1⟩ := ih (b0 + 1)
        (stepBufs w X nIC nIS b0 bufs p0) (p0 + min w (nIC - p0)) hp'
        (by rw [stepBufs_length]; omega)
      have he : p0 + min w (nIC - p0) + steps * w = p0 + (steps + 1) * w := by
        omega
      refine ⟨?_, ?_, ?_, ?_, ?_, ?_⟩
      · rw [L1, stepBufs_length]
      · rw [D1, he]
      · rw [P1, he]
      · intro k hk
        rw [B1 k (by omega), stepBufs_getD_ne w X nIC nIS b0 bufs p0 k (by omega)]
      · intro t ht hlt
        rcases Nat.eq_zero_or_pos t with ht0 | ht0
        · subst ht0
          simp only [Nat.add_zero, Nat.zero_mul]
          rw [B1 b0 (by omega), stepBufs_getD_eq w X nIC nIS b0 bufs p0 hb0]
        · obtain ⟨t', rfl⟩ : ∃ t', t = t' + 1 := ⟨t - 1, by omega⟩
          have hsm' : (t' + 1) * w = t' * w + w := Nat.succ_mul t' w
          have e1 : b0 + (t' + 1) = (b0 + 1) + t' := by omega
          have e2 : p0 + (t' + 1) * w = (p0 + min w (nIC - p0)) + t' * w := by
            omega
          rw [e1, e2,
            ← stepBufs_getD_ne w X nIC nIS b0 bufs p0 ((b0 + 1) + t') (by omega)]
          exact H1 t' (by omega) (by omega)
      · intro k hk hc
        by_cases hkb : k = b0
        · subst hkb
          have := hc (by omega)
          rw [Nat.sub_self, Nat.zero_mul, Nat.add_zero] at this
          omega
        · rw [U1 k (by omega) ?_, stepBufs_getD_ne w X nIC nIS b0 bufs p0 k hkb]
          intro hlt
          have hq := hc (by omega)
          have e3 : k - b0 = (k - (b0 + 1)) + 1 := by omega
          rw [e3, Nat.succ_mul] at hq
          omega

/-- The planar output after one iteration of a width-`w` deinterleave group
loop: channels `[p0, p0 + min w (nOC-p0))` are filled from bucket `b0`. -/
theorem stepOut_length (w : Nat) (bufs : List (VecBuffer α)) (nOC nOS b0 : Nat)
    (out : List (List α)) (p0 : Nat) :
    (stepOut w bufs nOC nOS b0 out p0).length = out.length :=
  readChannels_length _ _ _ _ _ _

theorem stepOut_getD_out (w : Nat) (bufs : List (VecBuffer α))
    (nOC nOS b0 : Nat) (out : List (List α)) (p0 ch : Nat)
    (hch : ch < p0 ∨ p0 + min w (nOC - p0) ≤ ch) :
    (stepOut w bufs nOC nOS b0 out p0).getD ch [] = out.getD ch [] :=
  readChannels_getD_miss _ _ _ _ _ _ _ (by omega)

theorem stepOut_getD_mid (w : Nat) (bufs : List (VecBuffer α))
    (nOC nOS b0 : Nat) (out : List (List α)) (p0 ch : Nat) (h1 : p0 ≤ ch)
    (h2 : ch < p0 + min w (nOC - p0)) (hlen : ch < out.length) :
    (stepOut w bufs nOC nOS b0 out p0).getD ch [] =
      readSamples w (ch - p0) (bufs.getD b0 VecBuffer.empty).data nOS
        (out.getD ch []) := by
  have := readChannels_getD_hit w (bufs.getD b0 VecBuffer.empty).data nOS p0
    (min w (nOC - p0)) out (ch - p0) (by omega) (by omega)
  rw [show ch - p0 + p0 = ch by omega] at this
  exact this

theorem deinterleaveLoop_succ (w : Nat) (bufs : List (VecBuffer α))
    (nOC nOS steps b0 : Nat) (out : List (List α)) (p0 : Nat) :
    deinterleaveLoop w bufs nOC nOS (steps + 1) b0 out p0 =
      if p0 + min w (nOC - p0) = nOC then
        ⟨stepOut w bufs nOC nOS b0 out p0, p0 + min w (nOC - p0), true⟩
      else deinterleaveLoop w bufs nOC nOS steps (b0 + 1)
        (stepOut w bufs nOC nOS b0 out p0) (p0 + min w (nOC - p0)) := rfl

theorem deinterleaveLoop_spec (w : Nat) (hw : 0 < w)
    (bufs : List (VecBuffer α)) (nOC nOS : Nat) :
    ∀ (steps b0 : Nat) (out : List (List α)) (p0 : Nat),
      p0 < nOC →
      (deinterleaveLoop w bufs nOC nOS steps b0 out p0).st.length =
        out.length ∧
      (deinterleaveLoop w bufs nOC nOS steps b0 out p0).done =
        decide (nOC ≤ p0 + steps * w) ∧
      (deinterleaveLoop w bufs nOC nOS steps b0 out p0).processed =
        min nOC (p0 + steps * w) ∧
      (∀ ch, ch < p0 →
        (deinterleaveLoop w bufs nOC nOS steps b0 out p0).st.getD ch [] =
          out.getD ch []) ∧
      (∀ ch, p0 ≤ ch → ch < min nOC (p0 + steps * w) → ch < out.length →
        (deinterleaveLoop w bufs nOC nOS steps b0 out p0).st.getD ch [] =
          readSamples w ((ch - p0) % w)
            (bufs.getD (b0 + (ch - p0) / w) VecBuffer.empty).data nOS
            (out.getD ch [])) ∧
      (∀ ch, min nOC (p0 + steps * w) ≤ ch →
        (deinterleaveLoop w bufs nOC nOS steps b0 out p0).st.getD ch [] =
          out.getD ch []) := by
  intro steps
  induction steps with
  | zero =>
    intro b0 out p0 hp
    refine ⟨rfl, (decide_eq_false (by omega)).symm, by show p0 = _; omega,
      fun ch hch => rfl, fun ch h1 h2 => by omega, fun ch hch => rfl⟩
  | succ steps ih =>
    intro b0 out p0 hp
    have hsm : (steps + 1) * w = steps * w + w := Nat.succ_mul steps w
    rw [deinterleaveLoop_succ]
    by_cases hdone : p0 + min w (nOC - p0) = nOC
    · rw [if_pos hdone]
      refine ⟨stepOut_length w bufs nOC nOS b0 out p0, ?_, ?_, ?_, ?_, ?_⟩
      · exact (decide_eq_true (by omega)).symm
      · show p0 + min w (nOC - p0) = _
        omega
      · intro ch hch
        exact stepOut_getD_out w bufs nOC nOS b0 out p0 ch (by omega)
      · intro ch h1 h2 hlen
        rw [stepOut_getD_mid w bufs nOC nOS b0 out p0 ch h1 (by omega) hlen,
          Nat.mod_eq_of_lt (show ch - p0 < w by omega),
          Nat.div_eq_of_lt (show ch - p0 < w by omega), Nat.add_zero]
      · intro ch hch
        exact stepOut_getD_out w bufs nOC nOS b0 out p0 ch (by omega)
    · rw [if_neg hdone]
      have hrww : min w (nOC - p0) = w := by omega
      have hp' : p0 + min w (nOC - p0) < nOC := by omega
      obtain ⟨L1, D1, P1, B1, H1, U1⟩ := ih (b0 + 1)
        (stepOut w bufs nOC nOS b0 out p0) (p0 + min w (nOC - p0)) hp'
      have he : p0 + min w (nOC - p0) + steps * w = p0 + (steps + 1) * w := by
        omega
      refine ⟨?_, ?_, ?_, ?_, ?_, ?_⟩
      · rw [L1, stepOut_length]
      · rw [D1, he]
      · rw [P1, he]
      · intro ch hch
        rw [B1 ch (by omega),
          stepOut_getD_out w bufs nOC nOS b0 out p0 ch (by omega)]
      · intro ch h1 h2 hlen
        by_cases hfirst : ch < p0 + w
        · rw [B1 ch (by omega),
            stepOut_getD_mid w bufs nOC nOS b0 out p0 ch h1 (by omega) hlen,
            Nat.mod_eq_of_lt (show ch - p0 < w by omega),
            Nat.div_eq_of_lt (show ch - p0 < w by omega), Nat.add_zero]
        · have key := H1 ch (by omega) (by rw [he]; exact h2)
            (by rw [stepOut_length]; exact hlen)
          rw [stepOut_getD_out w bufs nOC nOS b0 out p0 ch (by omega)] at key
          have ech : ch - p0 = (ch - (p0 + min w (nOC - p0))) + w := by omega
          rw [ech, Nat.add_mod_right, Nat.add_div_right _ hw]
          rw [show b0 + ((ch - (p0 + min w (nOC - p0))) / w + 1) =
            (b0 + 1) + (ch - (p0 + min w (nOC - p0))) / w by omega]
          exact key
      · intro ch hch
        rw [U1 ch (by rw [he]; exact hch),
          stepOut_getD_out w bufs nOC nOS b0 out p0 ch (by omega)]

theorem fill_map_getD_data (l : List (VecBuffer α)) (v : α) (k : Nat) :
    ((l.map (fun b => b.fill v)).getD k VecBuffer.empty).data =
      List.replicate ((l.getD k VecBuffer.empty).data.length) v := by
  rw [getD_map (fun b => b.fill v) l k VecBuffer.empty VecBuffer.empty]
  split
  · rfl
  · rename_i h
    rw [List.getD_eq_getElem?_getD, List.getElem?_eq_none (by omega)]
    rfl

theorem fillStep_cases (buf : InterleavedBuffer α) (nIC : Nat) :
    buf.fillStep nIC = buf ∨ buf.fillStep nIC = buf.fill 0 := by
  unfold InterleavedBuffer.fillStep
  split_ifs <;> simp

theorem fill_cfg (buf : InterleavedBuffer α) (v : α) :
    (buf.fill v).cfg = buf.cfg := rfl

theorem fill_numChannels (buf : InterleavedBuffer α) (v : α) :
    (buf.fill v).numChannels = buf.numChannels := rfl

theorem fill_numSamples (buf : InterleavedBuffer α) (v : α) :
    (buf.fill v).numSamples = buf.numSamples := rfl

theorem fill_len8 (buf : InterleavedBuffer α) (v : α) :
    (buf.fill v).buffers8.length = buf.buffers8.length := by
  simp [InterleavedBuffer.fill]

theorem fill_len4 (buf : InterleavedBuffer α) (v : α) :
    (buf.fill v).buffers4.length = buf.buffers4.length := by
  simp [InterleavedBuffer.fill]

theorem fill_len2 (buf : InterleavedBuffer α) (v : α) :
    (buf.fill v).buffers2.length = buf.buffers2.length := by
  simp [InterleavedBuffer.fill]

theorem fillStep_cfg (buf : InterleavedBuffer α) (nIC : Nat) :
    (buf.fillStep nIC).cfg = buf.cfg := by
  rcases fillStep_cases buf nIC with h | h <;> rw [h] <;> rfl

theorem fillStep_numChannels (buf : InterleavedBuffer α) (nIC : Nat) :
    (buf.fillStep nIC).numChannels = buf.numChannels := by
  rcases fillStep_cases buf nIC with h | h <;> rw [h] <;> rfl

theorem fillStep_numSamples (buf : InterleavedBuffer α) (nIC : Nat) :
    (buf.fillStep nIC).numSamples = buf.numSamples := by
  rcases fillStep_cases buf nIC with h | h <;> rw [h] <;> rfl

theorem fillStep_len8 (buf : InterleavedBuffer α) (nIC : Nat) :
    (buf.fillStep nIC).buffers8.length = buf.buffers8.length := by
  rcases fillStep_cases buf nIC with h | h <;> rw [h]
  exact fill_len8 buf 0

theorem fillStep_len4 (buf : InterleavedBuffer α) (nIC : Nat) :
    (buf.fillStep nIC).buffers4.length = buf.buffers4.length := by
  rcases fillStep_cases buf nIC with h | h <;> rw [h]
  exact fill_len4 buf 0

theorem fillStep_len2 (buf : InterleavedBuffer α) (nIC : Nat) :
    (buf.fillStep nIC).buffers2.length = buf.buffers2.length := by
  rcases fillStep_cases buf nIC with h | h <;> rw [h]
  exact fill_len2 buf 0

theorem fill_getD_data_len8 (buf : InterleavedBuffer α) (v : α) (k : Nat) :
    (((buf.fill v).buffers8.getD k VecBuffer.empty)).data.length =
      ((buf.buffers8.getD k VecBuffer.empty)).data.length := by
  show (((buf.buffers8.map _).getD k VecBuffer.empty)).data.length = _
  rw [fill_map_getD_data, List.length_replicate]

theorem fill_getD_data_len4 (buf : InterleavedBuffer α) (v : α) (k : Nat) :
    (((buf.fill v).buffers4.getD k VecBuffer.empty)).data.length =
      ((buf.buffers4.getD k VecBuffer.empty)).data.length := by
  show (((buf.buffers4.map _).getD k VecBuffer.empty)).data.length = _
  rw [fill_map_getD_data, List.length_replicate]

theorem fill_getD_data_len2 (buf : InterleavedBuffer α) (v : α) (k : Nat) :
    (((buf.fill v).buffers2.getD k VecBuffer.empty)).data.length =
      ((buf.buffers2.getD k VecBuffer.empty)).data.length := by
  show (((buf.buffers2.map _).getD k VecBuffer.empty)).data.length = _
  rw [fill_map_getD_data, List.length_replicate]

theorem fillStep_data_len8 (buf : InterleavedBuffer α) (nIC k : Nat) :
    ((buf.fillStep nIC).buffers8.getD k VecBuffer.empty).data.length =
      (buf.buffers8.getD k VecBuffer.empty).data.length := by
  rcases fillStep_cases buf nIC with h | h <;> rw [h]
  exact fill_getD_data_len8 buf 0 k

theorem fillStep_data_len4 (buf : InterleavedBuffer α) (nIC k : Nat) :
    ((buf.fillStep nIC).buffers4.getD k VecBuffer.empty).data.length =
      (buf.buffers4.getD k VecBuffer.empty).data.length := by
  rcases fillStep_cases buf nIC with h | h <;> rw [h]
  exact fill_getD_data_len4 buf 0 k

theorem fillStep_data_len2 (buf : InterleavedBuffer α) (nIC k : Nat) :
    ((buf.fillStep nIC).buffers2.getD k VecBuffer.empty).data.length =
      (buf.buffers2.getD k VecBuffer.empty).data.length := by
  rcases fillStep_cases buf nIC with h | h <;> rw [h]
  exact fill_getD_data_len2 buf 0 k

theorem getD_eq_getElem {β : Type} (l : List β) (k : Nat) (d : β)
    (h : k < l.length) : l.getD k d = l[k] := by
  rw [List.getD_eq_getElem?_getD, List.getElem?_eq_getElem h]
  rfl

theorem getD_mem {β : Type} (l : List β) (k : Nat) (d : β)
    (h : k < l.length) : l.getD k d ∈ l := by
  rw [getD_eq_getElem l k d h]
  exact List.getElem_mem h

theorem WF_data_len8 (buf : InterleavedBuffer α) (hwf : buf.WF) (k : Nat)
    (hk : k < buf.buffers8.length) :
    (buf.buffers8.getD k VecBuffer.empty).data.length =
      buf.numSamples * 8 :=
  hwf.dat8 _ (getD_mem _ k _ hk)

theorem WF_data_len4 (buf : InterleavedBuffer α) (hwf : buf.WF) (k : Nat)
    (hk : k < buf.buffers4.length) :
    (buf.buffers4.getD k VecBuffer.empty).data.length =
      buf.numSamples * 4 :=
  hwf.dat4 _ (getD_mem _ k _ hk)

theorem WF_data_len2 (buf : InterleavedBuffer α) (hwf : buf.WF) (k : Nat)
    (hk : k < buf.buffers2.length) :
    (buf.buffers2.getD k VecBuffer.empty).data.length =
      buf.numSamples * 2 :=
  hwf.dat2 _ (getD_mem _ k _ hk)

theorem mem_of_getD_len {β : Type} (l : List β) (d : β) (P : β → Prop)
    (hP : ∀ k, k < l.length → P (l.getD k d)) : ∀ b ∈ l, P b := by
  intro b hb
  obtain ⟨i, hi, rfl⟩ := List.mem_iff_getElem.mp hb
  have := hP i hi
  rwa [getD_eq_getElem l i d hi] at this

theorem interleaveLoop_len (w : Nat) (X : List (List α)) (nIC nIS : Nat) :
    ∀ (steps b0 : Nat) (bufs : List (VecBuffer α)) (p0 : Nat),
      (interleaveLoop w X nIC nIS steps b0 bufs p0).st.length = bufs.length := by
  intro steps
  induction steps with
  | zero => intro b0 bufs p0; rfl
  | succ steps ih =>
    intro b0 bufs p0
    rw [interleaveLoop_succ]
    split
    · exact stepBufs_length w X nIC nIS b0 bufs p0
    · rw [ih, stepBufs_length]

theorem interleaveLoop_data_len (w : Nat) (X : List (List α)) (nIC nIS : Nat) :
    ∀ (steps b0 : Nat) (bufs : List (VecBuffer α)) (p0 k : Nat),
      ((interleaveLoop w X nIC nIS steps b0 bufs p0).st.getD k
        VecBuffer.empty).data.length =
      (bufs.getD k VecBuffer.empty).data.length := by
  intro steps
  induction steps with
  | zero => intro b0 bufs p0 k; rfl
  | succ steps ih =>
    intro b0 bufs p0 k
    have hstep : ((stepBufs w X nIC nIS b0 bufs p0).getD k
        VecBuffer.empty).data.length =
        (bufs.getD k VecBuffer.empty).data.length := by
      by_cases hk : k = b0
      · subst hk
        by_cases hlen : k < bufs.length
        · rw [stepBufs_getD_eq w X nIC nIS k bufs p0 hlen]
          exact writeChannels_length _ _ _ _ _ _
        · unfold stepBufs
          rw [List.set_eq_of_length_le (by omega)]
      · rw [stepBufs_getD_ne w X nIC nIS b0 bufs p0 k hk]
    rw [interleaveLoop_succ]
    split
    · exact hstep
    · rw [ih, hstep]

theorem interleave_frame (buf : InterleavedBuffer α) (X : List (List α))
    (nIC nIS : Nat) :
    (buf.interleave X nIC nIS).1.cfg = buf.cfg ∧
    (buf.interleave X nIC nIS).1.numChannels = buf.numChannels ∧
    (buf.interleave X nIC nIS).1.numSamples = buf.numSamples ∧
    (buf.interleave X nIC nIS).1.capacity = buf.capacity ∧
    (buf.interleave X nIC nIS).1.buffers8.length = buf.buffers8.length ∧
    (buf.interleave X nIC nIS).1.buffers4.length = buf.buffers4.length ∧
    (buf.interleave X nIC nIS).1.buffers2.length = buf.buffers2.length ∧
    (∀ k, ((buf.interleave X nIC nIS).1.buffers8.getD k
        VecBuffer.empty).data.length =
      (buf.buffers8.getD k VecBuffer.empty).data.length) ∧
    (∀ k, ((buf.interleave X nIC nIS).1.buffers4.getD k
        VecBuffer.empty).data.length =
      (buf.buffers4.getD k VecBuffer.empty).data.length) ∧
    (∀ k, ((buf.interleave X nIC nIS).1.buffers2.getD k
        VecBuffer.empty).data.length =
      (buf.buffers2.getD k VecBuffer.empty).data.length) := by
  simp only [InterleavedBuffer.interleave]
  split_ifs <;>
    exact ⟨fillStep_cfg buf nIC, fillStep_numChannels buf nIC,
      fillStep_numSamples buf nIC, fillStep_capacity buf nIC,
      by simp only [interleaveLoop_len, fillStep_len8],
      by simp only [interleaveLoop_len, fillStep_len4],
      by simp only [interleaveLoop_len, fillStep_len2],
      fun k => by simp only [interleaveLoop_data_len, fillStep_data_len8],
      fun k => by simp only [interleaveLoop_data_len, fillStep_data_len4],
      fun k => by simp only [interleaveLoop_data_len, fillStep_data_len2]⟩

theorem bufferList_two (buf : InterleavedBuffer α) :
    buf.bufferList 2 = buf.buffers2 := rfl

theorem bufferList_four (buf : InterleavedBuffer α) :
    buf.bufferList 4 = buf.buffers4 := rfl

theorem bufferList_eight (buf : InterleavedBuffer α) :
    buf.bufferList 8 = buf.buffers8 := rfl

theorem readAt_width2 (buf : InterleavedBuffer α) (bk ln j : Nat) :
    buf.readAt ⟨2, bk, ln⟩ j =
      (buf.buffers2.getD bk VecBuffer.empty).data.getD (j * 2 + ln) 0 := rfl

theorem readAt_width4 (buf : InterleavedBuffer α) (bk ln j : Nat) :
    buf.readAt ⟨4, bk, ln⟩ j =
      (buf.buffers4.getD bk VecBuffer.empty).data.getD (j * 4 + ln) 0 := rfl

theorem readAt_width8 (buf : InterleavedBuffer α) (bk ln j : Nat) :
    buf.readAt ⟨8, bk, ln⟩ j =
      (buf.buffers8.getD bk VecBuffer.empty).data.getD (j * 8 + ln) 0 := rfl

theorem interleave_spec (buf : InterleavedBuffer α) (hv : buf.cfg.valid)
    (hwf : buf.WF) (X : List (List α)) (nIC nIS : Nat) (h1 : 1 ≤ nIC)
    (h2 : nIC ≤ buf.numChannels) (h3 : nIS ≤ buf.numSamples) :
    (buf.interleave X nIC nIS).2 = true ∧
    (∀ ch j, ch < nIC → j < nIS →
      (buf.interleave X nIC nIS).1.readAt
        (doAtChannel buf.cfg buf.buffers2.length buf.buffers4.length ch) j =
        (X.getD ch []).getD j 0) ∧
    (∀ wd k i j, (wd = 2 ∨ wd = 4 ∨ wd = 8) → k < (buf.bufferList wd).length →
      i < wd → j < buf.numSamples →
      ((∀ ch, ch < nIC →
        doAtChannel buf.cfg buf.buffers2.length buf.buffers4.length ch ≠
          ⟨wd, k, i⟩) ∨ nIS ≤ j) →
      (buf.interleave X nIC nIS).1.readAt ⟨wd, k, i⟩ j =
        (buf.fillStep nIC).readAt ⟨wd, k, i⟩ j) := by
  have hcases : (buf.cfg.vec8 = true ∧ buf.cfg.vec4 = true) ∨
      (buf.cfg.vec8 = false ∧ buf.cfg.vec4 = true ∧ buf.cfg.vec2 = true) ∨
      (buf.cfg.vec8 = false ∧ buf.cfg.vec4 = true ∧ buf.cfg.vec2 = false) ∨
      (buf.cfg.vec8 = false ∧ buf.cfg.vec4 = false ∧ buf.cfg.vec2 = true) := by
    rcases hv with h | h | h | h | h <;> rw [h] <;> decide
  rcases hcases with ⟨h8, h4⟩ | ⟨h8, h4, hv2⟩ | ⟨h8, h4, hv2⟩ | ⟨h8, h4, hv2⟩
  · -- 8/4 family (float AVX, double AVX512)
    have hl2 : buf.buffers2.length = 0 := by
      rw [hwf.len2, layout84_num2 _ h8]
    have hg2 : ¬ ((buf.fillStep nIC).cfg.vec2 = true ∧
        0 < (buf.fillStep nIC).buffers2.length) := by
      intro hcon
      have hx := hcon.2
      rw [fillStep_len2, hl2] at hx
      omega
    simp only [InterleavedBuffer.interleave]
    rw [if_neg hg2]
    try dsimp only
    rw [if_neg (show ¬ (false = true) by simp)]
    by_cases h44 : 0 < buf.buffers4.length
    · -- a width-4 remainder bucket exists: it holds channels [0, min 4 nIC)
      have hl4 : buf.buffers4.length = 1 := by
        rw [hwf.len4, layout84_num4 _ h8] at h44 ⊢
        split_ifs at h44 ⊢ <;> omega
      have hg4 : (buf.fillStep nIC).cfg.vec4 = true ∧
          0 < (buf.fillStep nIC).buffers4.length :=
        ⟨by rw [fillStep_cfg]; exact h4, by rw [fillStep_len4]; omega⟩
      rw [if_pos hg4]
      have hgs : groupSteps 4 nIC (buf.fillStep nIC).buffers4.length = 1 := by
        rw [fillStep_len4, hl4]
        unfold groupSteps
        split_ifs <;> omega
      rw [hgs]
      obtain ⟨L4len, L4done, L4proc, L4below, L4hit, L4un⟩ :=
        interleaveLoop_spec 4 (by omega) X nIC nIS 1 0
          (buf.fillStep nIC).buffers4 0 (by omega) (by rw [fillStep_len4, hl4])
      have h40 := L4hit 0 (by omega) (by omega)
      simp only [Nat.add_zero, Nat.zero_mul, Nat.sub_zero] at h40
      by_cases hn4 : nIC ≤ 4
      · rw [if_pos (show (interleaveLoop 4 X nIC nIS 1 0
            (buf.fillStep nIC).buffers4 0).done = true by
          rw [L4done]; exact decide_eq_true (by omega))]
        refine ⟨rfl, ?_, ?_⟩
        · intro ch j hch hj
          rw [doAt84 _ h8, hl4, if_pos (show (0:Nat) < 1 by omega),
            if_pos (show ch < 4 by omega), readAt_width4]
          try dsimp only
          rw [h40]
          try dsimp only
          rw [writeChannels_getD_hit 4 (by omega) X nIS 0 (min 4 nIC) _ ch j
            (by omega) (by omega) hj (by
              rw [fillStep_data_len4, WF_data_len4 buf hwf 0 (by omega)]
              omega), Nat.add_zero]
        · intro wd k i j hwd hk hi hj hmiss
          rcases hwd with rfl | rfl | rfl
          · rw [bufferList_two, hl2] at hk; omega
          · rw [bufferList_four, hl4] at hk
            have hk0 : k = 0 := by omega
            subst hk0
            rw [readAt_width4, readAt_width4]
            try dsimp only
            rw [h40]
            try dsimp only
            refine writeChannels_getD_miss 4 (by omega) X nIS 0 (min 4 nIC) _
              i j hi (by omega) ?_
            rcases hmiss with hm | hm
            · left
              by_contra hcon
              push_neg at hcon
              exact hm i (by omega) (by
                rw [doAt84 _ h8, hl4, if_pos (show (0:Nat) < 1 by omega),
                  if_pos (show i < 4 by omega)])
            · right; exact hm
          · rfl
      · -- channels past the first 4 go to the width-8 buckets
        have hc4' : ¬ buf.numChannels ≤ 4 := by omega
        have hr : 0 < buf.numChannels % 8 ∧ buf.numChannels % 8 ≤ 4 := by
          have hx := hwf.len4
          rw [layout84_num4 _ h8, hl4] at hx
          by_cases hy : 0 < buf.numChannels % 8 ∧ buf.numChannels % 8 ≤ 4
          · exact hy
          · rw [if_neg hc4', if_neg hy] at hx
            omega
        have hl8 : buf.buffers8.length = buf.numChannels / 8 := by
          have hx := hwf.len8
          rw [layout84_num8 _ h8, if_neg hc4',
            if_neg (show ¬ 4 < buf.numChannels % 8 by omega)] at hx
          omega
        rw [if_neg (show ¬ ((interleaveLoop 4 X nIC nIS 1 0
            (buf.fillStep nIC).buffers4 0).done = true) by
          rw [L4done, decide_eq_true_eq]; omega)]
        rw [show (interleaveLoop 4 X nIC nIS 1 0
            (buf.fillStep nIC).buffers4 0).processed = 4 by
          rw [L4proc]; omega]
        rw [if_pos (show (buf.fillStep nIC).cfg.vec8 = true ∧
            0 < (buf.fillStep nIC).buffers8.length from
          ⟨by rw [fillStep_cfg]; exact h8, by
            rw [fillStep_len8, hl8]; omega⟩)]
        rw [show groupSteps 8 nIC (buf.fillStep nIC).buffers8.length =
            groupSteps 8 nIC (buf.numChannels / 8) by
          rw [fillStep_len8, hl8]]
        have hS2 : nIC ≤ 4 + 8 * groupSteps 8 nIC (buf.numChannels / 8) := by
          unfold groupSteps
          split_ifs <;> omega
        have hS1 : groupSteps 8 nIC (buf.numChannels / 8) ≤
            buf.numChannels / 8 := by
          unfold groupSteps; omega
        obtain ⟨L8len, L8done, L8proc, L8below, L8hit, L8un⟩ :=
          interleaveLoop_spec 8 (by omega) X nIC nIS
            (groupSteps 8 nIC (buf.numChannels / 8)) 0
            (buf.fillStep nIC).buffers8 4 (by omega)
            (by rw [fillStep_len8, hl8]; omega)
        refine ⟨by dsimp only; rw [L8done]; exact decide_eq_true (by omega),
          ?_, ?_⟩
        · intro ch j hch hj
          rw [doAt84 _ h8, hl4, if_pos (show (0:Nat) < 1 by omega)]
          by_cases hch4 : ch < 4
          · rw [if_pos hch4, readAt_width4]
            try dsimp only
            rw [h40]
            try dsimp only
            rw [writeChannels_getD_hit 4 (by omega) X nIS 0 (min 4 nIC) _ ch j
              (by omega) (by omega) hj (by
                rw [fillStep_data_len4, WF_data_len4 buf hwf 0 (by omega)]
                omega), Nat.add_zero]
          · rw [if_neg hch4, readAt_width8]
            try dsimp only
            have hdm := Nat.div_add_mod (ch - 4) 8
            have h8hit := L8hit ((ch - 4) / 8) (by omega) (by omega)
            simp only [Nat.zero_add] at h8hit
            rw [h8hit]
            try dsimp only
            rw [writeChannels_getD_hit 8 (by omega) X nIS
              (4 + (ch - 4) / 8 * 8) _ _ ((ch - 4) % 8) j (by omega)
              (by omega) hj (by
                rw [fillStep_data_len8, WF_data_len8 buf hwf _ (by omega)]
                omega)]
            rw [show (ch - 4) % 8 + (4 + (ch - 4) / 8 * 8) = ch by omega]
        · intro wd k i j hwd hk hi hj hmiss
          rcases hwd with rfl | rfl | rfl
          · rw [bufferList_two, hl2] at hk; omega
          · rw [bufferList_four, hl4] at hk
            have hk0 : k = 0 := by omega
            subst hk0
            rw [readAt_width4, readAt_width4]
            try dsimp only
            rw [h40]
            try dsimp only
            refine writeChannels_getD_miss 4 (by omega) X nIS 0 (min 4 nIC) _
              i j hi (by omega) ?_
            rcases hmiss with hm | hm
            · left
              by_contra hcon
              push_neg at hcon
              exact hm i (by omega) (by
                rw [doAt84 _ h8, hl4, if_pos (show (0:Nat) < 1 by omega),
                  if_pos (show i < 4 by omega)])
            · right; exact hm
          · rw [bufferList_eight, hl8] at hk
            rw [readAt_width8, readAt_width8]
            try dsimp only
            by_cases hexec : k < groupSteps 8 nIC (buf.numChannels / 8) ∧
                4 + k * 8 < nIC
            · have h8hit := L8hit k hexec.1 hexec.2
              simp only [Nat.zero_add] at h8hit
              rw [h8hit]
              try dsimp only
              refine writeChannels_getD_miss 8 (by omega) X nIS (4 + k * 8) _
                _ i j hi (by omega) ?_
              rcases hmiss with hm | hm
              · left
                by_contra hcon
                push_neg at hcon
                refine absurd ?_ (hm (4 + k * 8 + i) (by omega))
                rw [doAt84 _ h8, hl4, if_pos (show (0:Nat) < 1 by omega),
                  if_neg (show ¬ (4 + k * 8 + i < 4) by omega),
                  show 4 + k * 8 + i - 4 = k * 8 + i by omega,
                  (lane_decomp 8 (by omega) k i (by omega)).1,
                  (lane_decomp 8 (by omega) k i (by omega)).2]
              · right; exact hm
            · have h8un := L8un k (by omega) (by
                intro hlt
                simp only [Nat.sub_zero] at hlt ⊢
                omega)
              rw [h8un]
    · -- no width-4 bucket: all channels live in width-8 buckets
      have hl4 : buf.buffers4.length = 0 := by omega
      have hc4' : ¬ buf.numChannels ≤ 4 := by
        intro hcon
        have hx := hwf.len4
        rw [layout84_num4 _ h8, if_pos hcon] at hx
        omega
      have hr : ¬ (0 < buf.numChannels % 8 ∧ buf.numChannels % 8 ≤ 4) := by
        intro hcon
        have hx := hwf.len4
        rw [layout84_num4 _ h8, if_neg hc4', if_pos hcon] at hx
        omega
      have hl8 : buf.buffers8.length =
          buf.numChannels / 8 + (if 4 < buf.numChannels % 8 then 1 else 0) := by
        have hx := hwf.len8
        rw [layout84_num8 _ h8, if_neg hc4'] at hx
        omega
      rw [if_neg (show ¬ ((buf.fillStep nIC).cfg.vec4 = true ∧
          0 < (buf.fillStep nIC).buffers4.length) by
        intro hcon
        have hx := hcon.2
        rw [fillStep_len4, hl4] at hx
        omega)]
      try dsimp only
      rw [if_neg (show ¬ (false = true) by simp)]
      rw [if_pos (show (buf.fillStep nIC).cfg.vec8 = true ∧
          0 < (buf.fillStep nIC).buffers8.length from
        ⟨by rw [fillStep_cfg]; exact h8, by
          rw [fillStep_len8, hl8]; split_ifs <;> omega⟩)]
      rw [show groupSteps 8 nIC (buf.fillStep nIC).buffers8.length =
          groupSteps 8 nIC (buf.buffers8.length) by rw [fillStep_len8]]
      have hS2 : nIC ≤ 0 + 8 * groupSteps 8 nIC buf.buffers8.length := by
        rw [hl8]
        unfold groupSteps
        split_ifs <;> omega
      have hS1 : groupSteps 8 nIC buf.buffers8.length ≤
          buf.buffers8.length := by
        unfold groupSteps; omega
      obtain ⟨L8len, L8done, L8proc, L8below, L8hit, L8un⟩ :=
        interleaveLoop_spec 8 (by omega) X nIC nIS
          (groupSteps 8 nIC buf.buffers8.length) 0
          (buf.fillStep nIC).buffers8 0 (by omega)
          (by rw [fillStep_len8]; unfold groupSteps; omega)
      refine ⟨by dsimp only; rw [L8done]; exact decide_eq_true (by omega),
        ?_, ?_⟩
      · intro ch j hch hj
        rw [doAt84 _ h8, hl4, if_neg (show ¬ ((0:Nat) < 0) by omega),
          readAt_width8]
        try dsimp only
        have hdm := Nat.div_add_mod ch 8
        have h8hit := L8hit (ch / 8) (by omega) (by omega)
        simp only [Nat.zero_add, Nat.add_zero] at h8hit
        rw [h8hit]
        try dsimp only
        rw [writeChannels_getD_hit 8 (by omega) X nIS (ch / 8 * 8) _ _
          (ch % 8) j (by omega) (by omega) hj (by
            rw [fillStep_data_len8, WF_data_len8 buf hwf _ (by omega)]
            omega)]
        rw [show ch % 8 + ch / 8 * 8 = ch by omega]
      · intro wd k i j hwd hk hi hj hmiss
        rcases hwd with rfl | rfl | rfl
        · rw [bufferList_two, hl2] at hk; omega
        · rw [bufferList_four, hl4] at hk; omega
        · rw [bufferList_eight] at hk
          rw [readAt_width8, readAt_width8]
          try dsimp only
          by_cases hexec : k < groupSteps 8 nIC buf.buffers8.length ∧
              k * 8 < nIC
          · have h8hit := L8hit k hexec.1 (by omega)
            simp only [Nat.zero_add] at h8hit
            rw [h8hit]
            try dsimp only
            refine writeChannels_getD_miss 8 (by omega) X nIS (k * 8) _
              _ i j hi (by omega) ?_
            rcases hmiss with hm | hm
            · left
              by_contra hcon
              push_neg at hcon
              refine absurd ?_ (hm (k * 8 + i) (by omega))
              rw [doAt84 _ h8, hl4, if_neg (show ¬ ((0:Nat) < 0) by omega),
                (lane_decomp 8 (by omega) k i (by omega)).1,
                (lane_decomp 8 (by omega) k i (by omega)).2]
            · right; exact hm
          · have h8un := L8un k (by omega) (by
              intro hlt
              simp only [Nat.sub_zero] at hlt ⊢
              omega)
            rw [h8un]
  · -- 4/2 family (double precision with AVX, no AVX512)
    have hl8 : buf.buffers8.length = 0 := by
      rw [hwf.len8, layout42_num8 _ h8 h4 hv2]
    simp only [InterleavedBuffer.interleave]
    by_cases h22 : 0 < buf.buffers2.length
    · -- a width-2 remainder bucket exists
      have hl2 : buf.buffers2.length = 1 := by
        have hx := hwf.len2
        rw [layout42_num2 _ h8 h4 hv2] at hx
        split_ifs at hx <;> omega
      rw [if_pos (show (buf.fillStep nIC).cfg.vec2 = true ∧
          0 < (buf.fillStep nIC).buffers2.length from
        ⟨by rw [fillStep_cfg]; exact hv2, by rw [fillStep_len2]; omega⟩)]
      have hgs : groupSteps 2 nIC (buf.fillStep nIC).buffers2.length = 1 := by
        rw [fillStep_len2, hl2]
        unfold groupSteps
        split_ifs <;> omega
      rw [hgs]
      obtain ⟨L2len, L2done, L2proc, L2below, L2hit, L2un⟩ :=
        interleaveLoop_spec 2 (by omega) X nIC nIS 1 0
          (buf.fillStep nIC).buffers2 0 (by omega) (by rw [fillStep_len2, hl2])
      have h20 := L2hit 0 (by omega) (by omega)
      simp only [Nat.add_zero, Nat.zero_mul, Nat.sub_zero] at h20
      by_cases hn2 : nIC ≤ 2
      · rw [if_pos (show (interleaveLoop 2 X nIC nIS 1 0
            (buf.fillStep nIC).buffers2 0).done = true by
          rw [L2done]; exact decide_eq_true (by omega))]
        refine ⟨rfl, ?_, ?_⟩
        · intro ch j hch hj
          rw [doAt42 _ h8 h4 hv2, hl2, if_pos (show (0:Nat) < 1 by omega),
            if_pos (show ch < 2 by omega), readAt_width2]
          try dsimp only
          rw [h20]
          try dsimp only
          rw [writeChannels_getD_hit 2 (by omega) X nIS 0 (min 2 nIC) _ ch j
            (by omega) (by omega) hj (by
              rw [fillStep_data_len2, WF_data_len2 buf hwf 0 (by omega)]
              omega), Nat.add_zero]
        · intro wd k i j hwd hk hi hj hmiss
          rcases hwd with rfl | rfl | rfl
          · rw [bufferList_two, hl2] at hk
            have hk0 : k = 0 := by omega
            subst hk0
            rw [readAt_width2, readAt_width2]
            try dsimp only
            rw [h20]
            try dsimp only
            refine writeChannels_getD_miss 2 (by omega) X nIS 0 (min 2 nIC) _
              i j hi (by omega) ?_
            rcases hmiss with hm | hm
            · left
              by_contra hcon
              push_neg at hcon
              exact hm i (by omega) (by
                rw [doAt42 _ h8 h4 hv2, hl2, if_pos (show (0:Nat) < 1 by omega),
                  if_pos (show i < 2 by omega)])
            · right; exact hm
          · rfl
          · rfl
      · -- channels past the first 2 go to the width-4 buckets
        have hc2' : ¬ buf.numChannels ≤ 2 := by omega
        have hr : 0 < buf.numChannels % 4 ∧ buf.numChannels % 4 ≤ 2 := by
          have hx := hwf.len2
          rw [layout42_num2 _ h8 h4 hv2, hl2] at hx
          by_cases hy : 0 < buf.numChannels % 4 ∧ buf.numChannels % 4 ≤ 2
          · exact hy
          · rw [if_neg hc2', if_neg hy] at hx
            omega
        have hl4 : buf.buffers4.length = buf.numChannels / 4 := by
          have hx := hwf.len4
          rw [layout42_num4 _ h8 h4 hv2, if_neg hc2',
            if_neg (show ¬ 2 < buf.numChannels % 4 by omega)] at hx
          omega
        rw [if_neg (show ¬ ((interleaveLoop 2 X nIC nIS 1 0
            (buf.fillStep nIC).buffers2 0).done = true) by
          rw [L2done, decide_eq_true_eq]; omega)]
        rw [show (interleaveLoop 2 X nIC nIS 1 0
            (buf.fillStep nIC).buffers2 0).processed = 2 by
          rw [L2proc]; omega]
        rw [if_pos (show (buf.fillStep nIC).cfg.vec4 = true ∧
            0 < (buf.fillStep nIC).buffers4.length from
          ⟨by rw [fillStep_cfg]; exact h4, by
            rw [fillStep_len4, hl4]; omega⟩)]
        rw [show groupSteps 4 nIC (buf.fillStep nIC).buffers4.length =
            groupSteps 4 nIC (buf.numChannels / 4) by
          rw [fillStep_len4, hl4]]
        have hS2 : nIC ≤ 2 + 4 * groupSteps 4 nIC (buf.numChannels / 4) := by
          unfold groupSteps
          split_ifs <;> omega
        have hS1 : groupSteps 4 nIC (buf.numChannels / 4) ≤
            buf.numChannels / 4 := by
          unfold groupSteps; omega
        obtain ⟨L4len, L4done, L4proc, L4below, L4hit, L4un⟩ :=
          interleaveLoop_spec 4 (by omega) X nIC nIS
            (groupSteps 4 nIC (buf.numChannels / 4)) 0
            (buf.fillStep nIC).buffers4 2 (by omega)
            (by rw [fillStep_len4, hl4]; omega)
        rw [if_pos (show (interleaveLoop 4 X nIC nIS
            (groupSteps 4 nIC (buf.numChannels / 4)) 0
            (buf.fillStep nIC).buffers4 2).done = true by
          rw [L4done]; exact decide_eq_true (by omega))]
        refine ⟨rfl, ?_, ?_⟩
        · intro ch j hch hj
          rw [doAt42 _ h8 h4 hv2, hl2, if_pos (show (0:Nat) < 1 by omega)]
          by_cases hch2 : ch < 2
          · rw [if_pos hch2, readAt_width2]
            try dsimp only
            rw [h20]
            try dsimp only
            rw [writeChannels_getD_hit 2 (by omega) X nIS 0 (min 2 nIC) _ ch j
              (by omega) (by omega) hj (by
                rw [fillStep_data_len2, WF_data_len2 buf hwf 0 (by omega)]
                omega), Nat.add_zero]
          · rw [if_neg hch2, readAt_width4]
            try dsimp only
            have hdm := Nat.div_add_mod (ch - 2) 4
            have h4hit := L4hit ((ch - 2) / 4) (by omega) (by omega)
            simp only [Nat.zero_add] at h4hit
            rw [h4hit]
            try dsimp only
            rw [writeChannels_getD_hit 4 (by omega) X nIS
              (2 + (ch - 2) / 4 * 4) _ _ ((ch - 2) % 4) j (by omega)
              (by omega) hj (by
                rw [fillStep_data_len4, WF_data_len4 buf hwf _ (by omega)]
                omega)]
            rw [show (ch - 2) % 4 + (2 + (ch - 2) / 4 * 4) = ch by omega]
        · intro wd k i j hwd hk hi hj hmiss
          rcases hwd with rfl | rfl | rfl
          · rw [bufferList_two, hl2] at hk
            have hk0 : k = 0 := by omega
            subst hk0
            rw [readAt_width2, readAt_width2]
            try dsimp only
            rw [h20]
            try dsimp only
            refine writeChannels_getD_miss 2 (by omega) X nIS 0 (min 2 nIC) _
              i j hi (by omega) ?_
            rcases hmiss with hm | hm
            · left
              by_contra hcon
              push_neg at hcon
              exact hm i (by omega) (by
                rw [doAt42 _ h8 h4 hv2, hl2, if_pos (show (0:Nat) < 1 by omega),
                  if_pos (show i < 2 by omega)])
            · right; exact hm
          · rw [bufferList_four, hl4] at hk
            rw [readAt_width4, readAt_width4]
            try dsimp only
            by_cases hexec : k < groupSteps 4 nIC (buf.numChannels / 4) ∧
                2 + k * 4 < nIC
            · have h4hit := L4hit k hexec.1 hexec.2
              simp only [Nat.zero_add] at h4hit
              rw [h4hit]
              try dsimp only
              refine writeChannels_getD_miss 4 (by omega) X nIS (2 + k * 4) _
                _ i j hi (by omega) ?_
              rcases hmiss with hm | hm
              · left
                by_contra hcon
                push_neg at hcon
                refine absurd ?_ (hm (2 + k * 4 + i) (by omega))
                rw [doAt42 _ h8 h4 hv2, hl2, if_pos (show (0:Nat) < 1 by omega),
                  if_neg (show ¬ (2 + k * 4 + i < 2) by omega),
                  show 2 + k * 4 + i - 2 = k * 4 + i by omega,
                  (lane_decomp 4 (by omega) k i (by omega)).1,
                  (lane_decomp 4 (by omega) k i (by omega)).2]
              · right; exact hm
            · have h4un := L4un k (by omega) (by
                intro hlt
                simp only [Nat.sub_zero] at hlt ⊢
                omega)
              rw [h4un]
          · rw [bufferList_eight, hl8] at hk; omega
    · -- no width-2 bucket: all channels live in width-4 buckets
      have hl2 : buf.buffers2.length = 0 := by omega
      have hc2' : ¬ buf.numChannels ≤ 2 := by
        intro hcon
        have hx := hwf.len2
        rw [layout42_num2 _ h8 h4 hv2, if_pos hcon] at hx
        omega
      have hr : ¬ (0 < buf.numChannels % 4 ∧ buf.numChannels % 4 ≤ 2) := by
        intro hcon
        have hx := hwf.len2
        rw [layout42_num2 _ h8 h4 hv2, if_neg hc2', if_pos hcon] at hx
        omega
      have hl4 : buf.buffers4.length = buf.numChannels / 4 +
          (if 2 < buf.numChannels % 4 then 1 else 0) := by
        have hx := hwf.len4
        rw [layout42_num4 _ h8 h4 hv2, if_neg hc2'] at hx
        omega
      rw [if_neg (show ¬ ((buf.fillStep nIC).cfg.vec2 = true ∧
          0 < (buf.fillStep nIC).buffers2.length) by
        intro hcon
        have hx := hcon.2
        rw [fillStep_len2, hl2] at hx
        omega)]
      try dsimp only
      rw [if_neg (show ¬ (false = true) by simp)]
      rw [if_pos (show (buf.fillStep nIC).cfg.vec4 = true ∧
          0 < (buf.fillStep nIC).buffers4.length from
        ⟨by rw [fillStep_cfg]; exact h4, by
          rw [fillStep_len4, hl4]; split_ifs <;> omega⟩)]
      rw [show groupSteps 4 nIC (buf.fillStep nIC).buffers4.length =
          groupSteps 4 nIC (buf.buffers4.length) by rw [fillStep_len4]]
      have hS2 : nIC ≤ 0 + 4 * groupSteps 4 nIC buf.buffers4.length := by
        rw [hl4]
        unfold groupSteps
        split_ifs <;> omega
      have hS1 : groupSteps 4 nIC buf.buffers4.length ≤
          buf.buffers4.length := by
        unfold groupSteps; omega
      obtain ⟨L4len, L4done, L4proc, L4below, L4hit, L4un⟩ :=
        interleaveLoop_spec 4 (by omega) X nIC nIS
          (groupSteps 4 nIC buf.buffers4.length) 0
          (buf.fillStep nIC).buffers4 0 (by omega)
          (by rw [fillStep_len4]; unfold groupSteps; omega)
      rw [if_pos (show (interleaveLoop 4 X nIC nIS
          (groupSteps 4 nIC buf.buffers4.length) 0
          (buf.fillStep nIC).buffers4 0).done = true by
        rw [L4done]; exact decide_eq_true (by omega))]
      refine ⟨rfl, ?_, ?_⟩
      · intro ch j hch hj
        rw [doAt42 _ h8 h4 hv2, hl2, if_neg (show ¬ ((0:Nat) < 0) by omega),
          readAt_width4]
        try dsimp only
        have hdm := Nat.div_add_mod ch 4
        have h4hit := L4hit (ch / 4) (by omega) (by omega)
        simp only [Nat.zero_add, Nat.add_zero] at h4hit
        rw [h4hit]
        try dsimp only
        rw [writeChannels_getD_hit 4 (by omega) X nIS (ch / 4 * 4) _ _
          (ch % 4) j (by omega) (by omega) hj (by
            rw [fillStep_data_len4, WF_data_len4 buf hwf _ (by omega)]
            omega)]
        rw [show ch % 4 + ch / 4 * 4 = ch by omega]
      · intro wd k i j hwd hk hi hj hmiss
        rcases hwd with rfl | rfl | rfl
        · rw [bufferList_two, hl2] at hk; omega
        · rw [bufferList_four] at hk
          rw [readAt_width4, readAt_width4]
          try dsimp only
          by_cases hexec : k < groupSteps 4 nIC buf.buffers4.length ∧
              k * 4 < nIC
          · have h4hit := L4hit k hexec.1 (by omega)
            simp only [Nat.zero_add] at h4hit
            rw [h4hit]
            try dsimp only
            refine writeChannels_getD_miss 4 (by omega) X nIS (k * 4) _
              _ i j hi (by omega) ?_
            rcases hmiss with hm | hm
            · left
              by_contra hcon
              push_neg at hcon
              refine absurd ?_ (hm (k * 4 + i) (by omega))
              rw [doAt42 _ h8 h4 hv2, hl2, if_neg (show ¬ ((0:Nat) < 0) by omega),
                (lane_decomp 4 (by omega) k i (by omega)).1,
                (lane_decomp 4 (by omega) k i (by omega)).2]
            · right; exact hm
          · have h4un := L4un k (by omega) (by
              intro hlt
              simp only [Nat.sub_zero] at hlt ⊢
              omega)
            rw [h4un]
        · rw [bufferList_eight, hl8] at hk; omega
  · -- 4-only family (float with only SSE2)
    have hl2 : buf.buffers2.length = 0 := by
      rw [hwf.len2, layout4_eq _ h8 h4 hv2]
    have hl8 : buf.buffers8.length = 0 := by
      rw [hwf.len8, layout4_eq _ h8 h4 hv2]
    have hl4 : buf.buffers4.length = buf.numChannels / 4 +
        (if 0 < buf.numChannels % 4 then 1 else 0) := by
      rw [hwf.len4, layout4_eq _ h8 h4 hv2]
    simp only [InterleavedBuffer.interleave]
    rw [if_neg (show ¬ ((buf.fillStep nIC).cfg.vec2 = true ∧
        0 < (buf.fillStep nIC).buffers2.length) by
      intro hcon
      have hx := hcon.2
      rw [fillStep_len2, hl2] at hx
      omega)]
    try dsimp only
    rw [if_neg (show ¬ (false = true) by simp)]
    rw [if_pos (show (buf.fillStep nIC).cfg.vec4 = true ∧
        0 < (buf.fillStep nIC).buffers4.length from
      ⟨by rw [fillStep_cfg]; exact h4, by
        rw [fillStep_len4, hl4]; split_ifs <;> omega⟩)]
    rw [show groupSteps 4 nIC (buf.fillStep nIC).buffers4.length =
        groupSteps 4 nIC (buf.buffers4.length) by rw [fillStep_len4]]
    have hS2 : nIC ≤ 0 + 4 * groupSteps 4 nIC buf.buffers4.length := by
      rw [hl4]
      unfold groupSteps
      split_ifs <;> omega
    have hS1 : groupSteps 4 nIC buf.buffers4.length ≤
        buf.buffers4.length := by
      unfold groupSteps; omega
    obtain ⟨L4len, L4done, L4proc, L4below, L4hit, L4un⟩ :=
      interleaveLoop_spec 4 (by omega) X nIC nIS
        (groupSteps 4 nIC buf.buffers4.length) 0
        (buf.fillStep nIC).buffers4 0 (by omega)
        (by rw [fillStep_len4]; unfold groupSteps; omega)
    rw [if_pos (show (interleaveLoop 4 X nIC nIS
        (groupSteps 4 nIC buf.buffers4.length) 0
        (buf.fillStep nIC).buffers4 0).done = true by
      rw [L4done]; exact decide_eq_true (by omega))]
    refine ⟨rfl, ?_, ?_⟩
    · intro ch j hch hj
      rw [doAt4 _ h8 h4 hv2, readAt_width4]
      try dsimp only
      have hdm := Nat.div_add_mod ch 4
      have h4hit := L4hit (ch / 4) (by omega) (by omega)
      simp only [Nat.zero_add, Nat.add_zero] at h4hit
      rw [h4hit]
      try dsimp only
      rw [writeChannels_getD_hit 4 (by omega) X nIS (ch / 4 * 4) _ _
        (ch % 4) j (by omega) (by omega) hj (by
          rw [fillStep_data_len4, WF_data_len4 buf hwf _ (by omega)]
          omega)]
      rw [show ch % 4 + ch / 4 * 4 = ch by omega]
    · intro wd k i j hwd hk hi hj hmiss
      rcases hwd with rfl | rfl | rfl
      · rw [bufferList_two, hl2] at hk; omega
      · rw [bufferList_four] at hk
        rw [readAt_width4, readAt_width4]
        try dsimp only
        by_cases hexec : k < groupSteps 4 nIC buf.buffers4.length ∧
            k * 4 < nIC
        · have h4hit := L4hit k hexec.1 (by omega)
          simp only [Nat.zero_add] at h4hit
          rw [h4hit]
          try dsimp only
          refine writeChannels_getD_miss 4 (by omega) X nIS (k * 4) _
            _ i j hi (by omega) ?_
          rcases hmiss with hm | hm
          · left
            by_contra hcon
            push_neg at hcon
            refine absurd ?_ (hm (k * 4 + i) (by omega))
            rw [doAt4 _ h8 h4 hv2,
              (lane_decomp 4 (by omega) k i (by omega)).1,
              (lane_decomp 4 (by omega) k i (by omega)).2]
          · right; exact hm
        · have h4un := L4un k (by omega) (by
            intro hlt
            simp only [Nat.sub_zero] at hlt ⊢
            omega)
          rw [h4un]
      · rw [bufferList_eight, hl8] at hk; omega
  · -- 2-only family (double with only SSE2)
    have hl4 : buf.buffers4.length = 0 := by
      rw [hwf.len4, layout2_eq _ h8 h4]
    have hl8 : buf.buffers8.length = 0 := by
      rw [hwf.len8, layout2_eq _ h8 h4]
    have hl2 : buf.buffers2.length = buf.numChannels / 2 +
        (if 0 < buf.numChannels % 2 then 1 else 0) := by
      rw [hwf.len2, layout2_eq _ h8 h4]
    simp only [InterleavedBuffer.interleave]
    rw [if_pos (show (buf.fillStep nIC).cfg.vec2 = true ∧
        0 < (buf.fillStep nIC).buffers2.length from
      ⟨by rw [fillStep_cfg]; exact hv2, by
        rw [fillStep_len2, hl2]; split_ifs <;> omega⟩)]
    rw [show groupSteps 2 nIC (buf.fillStep nIC).buffers2.length =
        groupSteps 2 nIC (buf.buffers2.length) by rw [fillStep_len2]]
    have hS2 : nIC ≤ 0 + 2 * groupSteps 2 nIC buf.buffers2.length := by
      rw [hl2]
      unfold groupSteps
      split_ifs <;> omega
    have hS1 : groupSteps 2 nIC buf.buffers2.length ≤
        buf.buffers2.length := by
      unfold groupSteps; omega
    obtain ⟨L2len, L2done, L2proc, L2below, L2hit, L2un⟩ :=
      interleaveLoop_spec 2 (by omega) X nIC nIS
        (groupSteps 2 nIC buf.buffers2.length) 0
        (buf.fillStep nIC).buffers2 0 (by omega)
        (by rw [fillStep_len2]; unfold groupSteps; omega)
    rw [if_pos (show (interleaveLoop 2 X nIC nIS
        (groupSteps 2 nIC buf.buffers2.length) 0
        (buf.fillStep nIC).buffers2 0).done = true by
      rw [L2done]; exact decide_eq_true (by omega))]
    refine ⟨rfl, ?_, ?_⟩
    · intro ch j hch hj
      rw [doAt2 _ h8 h4, readAt_width2]
      try dsimp only
      have hdm := Nat.div_add_mod ch 2
      have h2hit := L2hit (ch / 2) (by omega) (by omega)
      simp only [Nat.zero_add, Nat.add_zero] at h2hit
      rw [h2hit]
      try dsimp only
      rw [writeChannels_getD_hit 2 (by omega) X nIS (ch / 2 * 2) _ _
        (ch % 2) j (by omega) (by omega) hj (by
          rw [fillStep_data_len2, WF_data_len2 buf hwf _ (by omega)]
          omega)]
      rw [show ch % 2 + ch / 2 * 2 = ch by omega]
    · intro wd k i j hwd hk hi hj hmiss
      rcases hwd with rfl | rfl | rfl
      · rw [bufferList_two] at hk
        rw [readAt_width2, readAt_width2]
        try dsimp only
        by_cases hexec : k < groupSteps 2 nIC buf.buffers2.length ∧
            k * 2 < nIC
        · have h2hit := L2hit k hexec.1 (by omega)
          simp only [Nat.zero_add] at h2hit
          rw [h2hit]
          try dsimp only
          refine writeChannels_getD_miss 2 (by omega) X nIS (k * 2) _
            _ i j hi (by omega) ?_
          rcases hmiss with hm | hm
          · left
            by_contra hcon
            push_neg at hcon
            refine absurd ?_ (hm (k * 2 + i) (by omega))
            rw [doAt2 _ h8 h4,
              (lane_decomp 2 (by omega) k i (by omega)).1,
              (lane_decomp 2 (by omega) k i (by omega)).2]
          · right; exact hm
        · have h2un := L2un k (by omega) (by
            intro hlt
            simp only [Nat.sub_zero] at hlt ⊢
            omega)
          rw [h2un]
      · rw [bufferList_four, hl4] at hk; omega
      · rw [bufferList_eight, hl8] at hk; omega

theorem readChannels_getD_len (w : Nat) (bufData : List α) (nOS p r : Nat)
    (out : List (List α)) :
    ∀ ch, ((readChannels w bufData nOS p r out).getD ch []).length =
      (out.getD ch []).length := by
  induction r with
  | zero => intro ch; rfl
  | succ i ih =>
    intro ch
    show (((readChannels w bufData nOS p i out).set (i + p) _).getD ch
      []).length = _
    rw [getD_set]
    split
    · rename_i hx
      rw [readSamples_length, hx.1]
      exact ih ch
    · exact ih ch

theorem deinterleaveLoop_len (w : Nat) (bufs : List (VecBuffer α))
    (nOC nOS : Nat) :
    ∀ (steps b0 : Nat) (out : List (List α)) (p0 : Nat),
      (deinterleaveLoop w bufs nOC nOS steps b0 out p0).st.length =
        out.length := by
  intro steps
  induction steps with
  | zero => intro b0 out p0; rfl
  | succ steps ih =>
    intro b0 out p0
    rw [deinterleaveLoop_succ]
    split
    · exact stepOut_length w bufs nOC nOS b0 out p0
    · rw [ih, stepOut_length]

theorem deinterleaveLoop_chan_len (w : Nat) (bufs : List (VecBuffer α))
    (nOC nOS : Nat) :
    ∀ (steps b0 : Nat) (out : List (List α)) (p0 ch : Nat),
      ((deinterleaveLoop w bufs nOC nOS steps b0 out p0).st.getD ch
        []).length = ((out.getD ch []).length) := by
  intro steps
  induction steps with
  | zero => intro b0 out p0 ch; rfl
  | succ steps ih =>
    intro b0 out p0 ch
    rw [deinterleaveLoop_succ]
    split
    · exact readChannels_getD_len w _ nOS p0 _ out ch
    · rw [ih]
      exact readChannels_getD_len w _ nOS p0 _ out ch

theorem groupSteps_zero (w len : Nat) : groupSteps w 0 len = 0 := by
  unfold groupSteps
  simp

theorem deinterleave_len (buf : InterleavedBuffer α) (output : List (List α))
    (nOC nOS : Nat) :
    (buf.deinterleave output nOC nOS).1.length = output.length ∧
    (∀ ch, ((buf.deinterleave output nOC nOS).1.getD ch []).length =
      (output.getD ch []).length) := by
  simp only [InterleavedBuffer.deinterleave]
  split_ifs <;>
    exact ⟨by simp only [deinterleaveLoop_len], fun ch => by
      simp only [deinterleaveLoop_chan_len]⟩

theorem deinterleave_guard_false (buf : InterleavedBuffer α)
    (output : List (List α)) (nOC nOS : Nat)
    (h : buf.numChannels < nOC ∨ buf.numSamples < nOS) :
    buf.deinterleave output nOC nOS = (output, false) := by
  simp only [InterleavedBuffer.deinterleave]
  rw [if_pos h]

theorem deinterleave_nOC_zero (buf : InterleavedBuffer α)
    (output : List (List α)) (nOS : Nat) (h : ¬ buf.numSamples < nOS) :
    buf.deinterleave output 0 nOS = (output, false) := by
  simp only [InterleavedBuffer.deinterleave]
  rw [if_neg (show ¬ (buf.numChannels < 0 ∨ buf.numSamples < nOS) by omega)]
  rw [show (if buf.cfg.vec2 = true ∧ 0 < buf.buffers2.length then
      deinterleaveLoop 2 buf.buffers2 0 nOS
        (groupSteps 2 0 buf.buffers2.length) 0 output 0
    else ⟨output, 0, false⟩) = ⟨output, 0, false⟩ from by
    rw [groupSteps_zero]
    split_ifs <;> rfl]
  dsimp only
  rw [if_neg (show ¬ (false = true) by simp)]
  rw [show (if buf.cfg.vec4 = true ∧ 0 < buf.buffers4.length then
      deinterleaveLoop 4 buf.buffers4 0 nOS
        (groupSteps 4 0 buf.buffers4.length) 0 output 0
    else ⟨output, 0, false⟩) = ⟨output, 0, false⟩ from by
    rw [groupSteps_zero]
    split_ifs <;> rfl]
  dsimp only
  rw [if_neg (show ¬ (false = true) by simp)]
  rw [show (if buf.cfg.vec8 = true ∧ 0 < buf.buffers8.length then
      deinterleaveLoop 8 buf.buffers8 0 nOS
        (groupSteps 8 0 buf.buffers8.length) 0 output 0
    else ⟨output, 0, false⟩) = ⟨output, 0, false⟩ from by
    rw [groupSteps_zero]
    split_ifs <;> rfl]

theorem deinterleave_spec (buf : InterleavedBuffer α) (hv : buf.cfg.valid)
    (hwf : buf.WF) (output : List (List α)) (nOC nOS : Nat) (h1 : 1 ≤ nOC)
    (h2 : nOC ≤ buf.numChannels) (h3 : nOS ≤ buf.numSamples)
    (hol : nOC ≤ output.length)
    (hcl : ∀ ch, ch < nOC → nOS ≤ (output.getD ch []).length) :
    (buf.deinterleave output nOC nOS).2 = true ∧
    (∀ ch j, ch < nOC → j < nOS →
      ((buf.deinterleave output nOC nOS).1.getD ch []).getD j 0 =
        buf.readAt
          (doAtChannel buf.cfg buf.buffers2.length buf.buffers4.length ch)
          j) ∧
    (∀ ch, nOC ≤ ch →
      (buf.deinterleave output nOC nOS).1.getD ch [] = output.getD ch []) ∧
    (∀ ch j, ch < nOC → nOS ≤ j →
      ((buf.deinterleave output nOC nOS).1.getD ch []).getD j 0 =
        (output.getD ch []).getD j 0) := by
  have hcases : (buf.cfg.vec8 = true ∧ buf.cfg.vec4 = true) ∨
      (buf.cfg.vec8 = false ∧ buf.cfg.vec4 = true ∧ buf.cfg.vec2 = true) ∨
      (buf.cfg.vec8 = false ∧ buf.cfg.vec4 = true ∧ buf.cfg.vec2 = false) ∨
      (buf.cfg.vec8 = false ∧ buf.cfg.vec4 = false ∧ buf.cfg.vec2 = true) := by
    rcases hv with h | h | h | h | h <;> rw [h] <;> decide
  rcases hcases with ⟨h8, h4⟩ | ⟨h8, h4, hv2⟩ | ⟨h8, h4, hv2⟩ | ⟨h8, h4, hv2⟩
  · -- 8/4 family (float AVX, double AVX512)
    have hl2 : buf.buffers2.length = 0 := by
      rw [hwf.len2, layout84_num2 _ h8]
    simp only [InterleavedBuffer.deinterleave]
    rw [if_neg (show ¬ (buf.numChannels < nOC ∨ buf.numSamples < nOS) by
      omega)]
    rw [if_neg (show ¬ (buf.cfg.vec2 = true ∧ 0 < buf.buffers2.length) by
      intro hcon
      have hx := hcon.2
      rw [hl2] at hx
      omega)]
    try dsimp only
    rw [if_neg (show ¬ (false = true) by simp)]
    by_cases h44 : 0 < buf.buffers4.length
    · -- a width-4 remainder bucket exists: it holds channels [0, min 4 nOC)
      have hl4 : buf.buffers4.length = 1 := by
        rw [hwf.len4, layout84_num4 _ h8] at h44 ⊢
        split_ifs at h44 ⊢ <;> omega
      rw [if_pos (show buf.cfg.vec4 = true ∧ 0 < buf.buffers4.length from
        ⟨h4, h44⟩)]
      have hgs : groupSteps 4 nOC buf.buffers4.length = 1 := by
        rw [hl4]
        unfold groupSteps
        split_ifs <;> omega
      rw [hgs]
      obtain ⟨L4len, L4done, L4proc, L4below, L4hit, L4un⟩ :=
        deinterleaveLoop_spec 4 (by omega) buf.buffers4 nOC nOS 1 0 output 0
          (by omega)
      by_cases hn4 : nOC ≤ 4
      · rw [if_pos (show (deinterleaveLoop 4 buf.buffers4 nOC nOS 1 0
            output 0).done = true by
          rw [L4done]; exact decide_eq_true (by omega))]
        refine ⟨rfl, ?_, ?_, ?_⟩
        · intro ch j hch hj
          have hhit := L4hit ch (by omega) (by omega) (by omega)
          simp only [Nat.sub_zero, Nat.zero_add, Nat.add_zero] at hhit
          try dsimp only
          rw [hhit, Nat.mod_eq_of_lt (show ch < 4 by omega),
            Nat.div_eq_of_lt (show ch < 4 by omega)]
          rw [readSamples_getD_hit 4 ch _ nOS _ j hj
            (by have := hcl ch hch; omega)]
          rw [doAt84 _ h8, hl4, if_pos (show (0:Nat) < 1 by omega),
            if_pos (show ch < 4 by omega), readAt_width4]
        · intro ch hch
          try dsimp only
          exact L4un ch (by omega)
        · intro ch j hch hj
          have hhit := L4hit ch (by omega) (by omega) (by omega)
          simp only [Nat.sub_zero, Nat.zero_add, Nat.add_zero] at hhit
          try dsimp only
          rw [hhit, readSamples_getD_miss 4 _ _ nOS _ j hj]
      · -- channels past the first 4 come from the width-8 buckets
        have hc4' : ¬ buf.numChannels ≤ 4 := by omega
        have hr : 0 < buf.numChannels % 8 ∧ buf.numChannels % 8 ≤ 4 := by
          have hx := hwf.len4
          rw [layout84_num4 _ h8, hl4] at hx
          by_cases hy : 0 < buf.numChannels % 8 ∧ buf.numChannels % 8 ≤ 4
          · exact hy
          · rw [if_neg hc4', if_neg hy] at hx
            omega
        have hl8 : buf.buffers8.length = buf.numChannels / 8 := by
          have hx := hwf.len8
          rw [layout84_num8 _ h8, if_neg hc4',
            if_neg (show ¬ 4 < buf.numChannels % 8 by omega)] at hx
          omega
        rw [if_neg (show ¬ ((deinterleaveLoop 4 buf.buffers4 nOC nOS 1 0
            output 0).done = true) by
          rw [L4done, decide_eq_true_eq]; omega)]
        rw [show (deinterleaveLoop 4 buf.buffers4 nOC nOS 1 0
            output 0).processed = 4 by
          rw [L4proc]; omega]
        rw [if_pos (show buf.cfg.vec8 = true ∧ 0 < buf.buffers8.length from
          ⟨h8, by rw [hl8]; omega⟩)]
        rw [show groupSteps 8 nOC buf.buffers8.length =
            groupSteps 8 nOC (buf.numChannels / 8) by rw [hl8]]
        have hS2 : nOC ≤ 4 + 8 * groupSteps 8 nOC (buf.numChannels / 8) := by
          unfold groupSteps
          split_ifs <;> omega
        obtain ⟨L8len, L8done, L8proc, L8below, L8hit, L8un⟩ :=
          deinterleaveLoop_spec 8 (by omega) buf.buffers8 nOC nOS
            (groupSteps 8 nOC (buf.numChannels / 8)) 0
            (deinterleaveLoop 4 buf.buffers4 nOC nOS 1 0 output 0).st 4
            (by omega)
        refine ⟨?_, ?_, ?_, ?_⟩
        · try dsimp only
          rw [L8done]
          exact decide_eq_true (by omega)
        · intro ch j hch hj
          by_cases hch4 : ch < 4
          · try dsimp only
            rw [L8below ch (by omega)]
            have hhit := L4hit ch (by omega) (by omega) (by omega)
            simp only [Nat.sub_zero, Nat.zero_add, Nat.add_zero] at hhit
            rw [hhit, Nat.mod_eq_of_lt (show ch < 4 by omega),
              Nat.div_eq_of_lt (show ch < 4 by omega)]
            rw [readSamples_getD_hit 4 ch _ nOS _ j hj
              (by have := hcl ch hch; omega)]
            rw [doAt84 _ h8, hl4, if_pos (show (0:Nat) < 1 by omega),
              if_pos hch4, readAt_width4]
          · try dsimp only
            have hhit := L8hit ch (by omega) (by omega)
              (by rw [L4len]; omega)
            simp only [Nat.zero_add] at hhit
            rw [L4un ch (by omega)] at hhit
            rw [hhit]
            rw [readSamples_getD_hit 8 _ _ nOS _ j hj
              (by have := hcl ch hch; omega)]
            rw [doAt84 _ h8, hl4, if_pos (show (0:Nat) < 1 by omega),
              if_neg hch4, readAt_width8]
        · intro ch hch
          try dsimp only
          rw [L8un ch (by omega), L4un ch (by omega)]
        · intro ch j hch hj
          by_cases hch4 : ch < 4
          · try dsimp only
            rw [L8below ch (by omega)]
            have hhit := L4hit ch (by omega) (by omega) (by omega)
            simp only [Nat.sub_zero, Nat.zero_add, Nat.add_zero] at hhit
            rw [hhit, readSamples_getD_miss 4 _ _ nOS _ j hj]
          · try dsimp only
            have hhit := L8hit ch (by omega) (by omega)
              (by rw [L4len]; omega)
            simp only [Nat.zero_add] at hhit
            rw [L4un ch (by omega)] at hhit
            rw [hhit, readSamples_getD_miss 8 _ _ nOS _ j hj]
    · -- no width-4 bucket: all channels come from the width-8 buckets
      have hl4 : buf.buffers4.length = 0 := by omega
      have hc4' : ¬ buf.numChannels ≤ 4 := by
        intro hcon
        have hx := hwf.len4
        rw [layout84_num4 _ h8, if_pos hcon] at hx
        omega
      have hr : ¬ (0 < buf.numChannels % 8 ∧ buf.numChannels % 8 ≤ 4) := by
        intro hcon
        have hx := hwf.len4
        rw [layout84_num4 _ h8, if_neg hc4', if_pos hcon] at hx
        omega
      have hl8 : buf.buffers8.length =
          buf.numChannels / 8 + (if 4 < buf.numChannels % 8 then 1 else 0) := by
        have hx := hwf.len8
        rw [layout84_num8 _ h8, if_neg hc4'] at hx
        omega
      rw [if_neg (show ¬ (buf.cfg.vec4 = true ∧ 0 < buf.buffers4.length) by
        intro hcon
        have hx := hcon.2
        rw [hl4] at hx
        omega)]
      try dsimp only
      rw [if_neg (show ¬ (false = true) by simp)]
      rw [if_pos (show buf.cfg.vec8 = true ∧ 0 < buf.buffers8.length from
        ⟨h8, by rw [hl8]; split_ifs <;> omega⟩)]
      have hS2 : nOC ≤ 0 + 8 * groupSteps 8 nOC buf.buffers8.length := by
        rw [hl8]
        unfold groupSteps
        split_ifs <;> omega
      obtain ⟨L8len, L8done, L8proc, L8below, L8hit, L8un⟩ :=
        deinterleaveLoop_spec 8 (by omega) buf.buffers8 nOC nOS
          (groupSteps 8 nOC buf.buffers8.length) 0 output 0 (by omega)
      refine ⟨?_, ?_, ?_, ?_⟩
      · try dsimp only
        rw [L8done]
        exact decide_eq_true (by omega)
      · intro ch j hch hj
        try dsimp only
        have hhit := L8hit ch (by omega) (by omega) (by omega)
        simp only [Nat.sub_zero, Nat.zero_add, Nat.add_zero] at hhit
        rw [hhit]
        rw [readSamples_getD_hit 8 _ _ nOS _ j hj
          (by have := hcl ch hch; omega)]
        rw [doAt84 _ h8, hl4, if_neg (show ¬ ((0:Nat) < 0) by omega),
          readAt_width8]
      · intro ch hch
        try dsimp only
        exact L8un ch (by omega)
      · intro ch j hch hj
        try dsimp only
        have hhit := L8hit ch (by omega) (by omega) (by omega)
        simp only [Nat.sub_zero, Nat.zero_add, Nat.add_zero] at hhit
        rw [hhit, readSamples_getD_miss 8 _ _ nOS _ j hj]
  · -- 4/2 family (double precision with AVX, no AVX512)
    have hl8 : buf.buffers8.length = 0 := by
      rw [hwf.len8, layout42_num8 _ h8 h4 hv2]
    simp only [InterleavedBuffer.deinterleave]
    rw [if_neg (show ¬ (buf.numChannels < nOC ∨ buf.numSamples < nOS) by
      omega)]
    by_cases h22 : 0 < buf.buffers2.length
    · -- a width-2 remainder bucket exists
      have hl2 : buf.buffers2.length = 1 := by
        have hx := hwf.len2
        rw [layout42_num2 _ h8 h4 hv2] at hx
        split_ifs at hx <;> omega
      rw [if_pos (show buf.cfg.vec2 = true ∧ 0 < buf.buffers2.length from
        ⟨hv2, h22⟩)]
      have hgs : groupSteps 2 nOC buf.buffers2.length = 1 := by
        rw [hl2]
        unfold groupSteps
        split_ifs <;> omega
      rw [hgs]
      obtain ⟨L2len, L2done, L2proc, L2below, L2hit, L2un⟩ :=
        deinterleaveLoop_spec 2 (by omega) buf.buffers2 nOC nOS 1 0 output 0
          (by omega)
      by_cases hn2 : nOC ≤ 2
      · rw [if_pos (show (deinterleaveLoop 2 buf.buffers2 nOC nOS 1 0
            output 0).done = true by
          rw [L2done]; exact decide_eq_true (by omega))]
        refine ⟨rfl, ?_, ?_, ?_⟩
        · intro ch j hch hj
          have hhit := L2hit ch (by omega) (by omega) (by omega)
          simp only [Nat.sub_zero, Nat.zero_add, Nat.add_zero] at hhit
          try dsimp only
          rw [hhit, Nat.mod_eq_of_lt (show ch < 2 by omega),
            Nat.div_eq_of_lt (show ch < 2 by omega)]
          rw [readSamples_getD_hit 2 ch _ nOS _ j hj
            (by have := hcl ch hch; omega)]
          rw [doAt42 _ h8 h4 hv2, hl2, if_pos (show (0:Nat) < 1 by omega),
            if_pos (show ch < 2 by omega), readAt_width2]
        · intro ch hch
          try dsimp only
          exact L2un ch (by omega)
        · intro ch j hch hj
          have hhit := L2hit ch (by omega) (by omega) (by omega)
          simp only [Nat.sub_zero, Nat.zero_add, Nat.add_zero] at hhit
          try dsimp only
          rw [hhit, readSamples_getD_miss 2 _ _ nOS _ j hj]
      · -- channels past the first 2 come from the width-4 buckets
        have hc2' : ¬ buf.numChannels ≤ 2 := by omega
        have hr : 0 < buf.numChannels % 4 ∧ buf.numChannels % 4 ≤ 2 := by
          have hx := hwf.len2
          rw [layout42_num2 _ h8 h4 hv2, hl2] at hx
          by_cases hy : 0 < buf.numChannels % 4 ∧ buf.numChannels % 4 ≤ 2
          · exact hy
          · rw [if_neg hc2', if_neg hy] at hx
            omega
        have hl4 : buf.buffers4.length = buf.numChannels / 4 := by
          have hx := hwf.len4
          rw [layout42_num4 _ h8 h4 hv2, if_neg hc2',
            if_neg (show ¬ 2 < buf.numChannels % 4 by omega)] at hx
          omega
        rw [if_neg (show ¬ ((deinterleaveLoop 2 buf.buffers2 nOC nOS 1 0
            output 0).done = true) by
          rw [L2done, decide_eq_true_eq]; omega)]
        rw [show (deinterleaveLoop 2 buf.buffers2 nOC nOS 1 0
            output 0).processed = 2 by
          rw [L2proc]; omega]
        rw [if_pos (show buf.cfg.vec4 = true ∧ 0 < buf.buffers4.length from
          ⟨h4, by rw [hl4]; omega⟩)]
        rw [show groupSteps 4 nOC buf.buffers4.length =
            groupSteps 4 nOC (buf.numChannels / 4) by rw [hl4]]
        have hS2 : nOC ≤ 2 + 4 * groupSteps 4 nOC (buf.numChannels / 4) := by
          unfold groupSteps
          split_ifs <;> omega
        obtain ⟨L4len, L4done, L4proc, L4below, L4hit, L4un⟩ :=
          deinterleaveLoop_spec 4 (by omega) buf.buffers4 nOC nOS
            (groupSteps 4 nOC (buf.numChannels / 4)) 0
            (deinterleaveLoop 2 buf.buffers2 nOC nOS 1 0 output 0).st 2
            (by omega)
        rw [if_pos (show (deinterleaveLoop 4 buf.buffers4 nOC nOS
            (groupSteps 4 nOC (buf.numChannels / 4)) 0
            (deinterleaveLoop 2 buf.buffers2 nOC nOS 1 0 output 0).st
            2).done = true by
          rw [L4done]; exact decide_eq_true (by omega))]
        refine ⟨rfl, ?_, ?_, ?_⟩
        · intro ch j hch hj
          by_cases hch2 : ch < 2
          · try dsimp only
            rw [L4below ch (by omega)]
            have hhit := L2hit ch (by omega) (by omega) (by omega)
            simp only [Nat.sub_zero, Nat.zero_add, Nat.add_zero] at hhit
            rw [hhit, Nat.mod_eq_of_lt (show ch < 2 by omega),
              Nat.div_eq_of_lt (show ch < 2 by omega)]
            rw [readSamples_getD_hit 2 ch _ nOS _ j hj
              (by have := hcl ch hch; omega)]
            rw [doAt42 _ h8 h4 hv2, hl2, if_pos (show (0:Nat) < 1 by omega),
              if_pos hch2, readAt_width2]
          · try dsimp only
            have hhit := L4hit ch (by omega) (by omega)
              (by rw [L2len]; omega)
            simp only [Nat.zero_add] at hhit
            rw [L2un ch (by omega)] at hhit
            rw [hhit]
            rw [readSamples_getD_hit 4 _ _ nOS _ j hj
              (by have := hcl ch hch; omega)]
            rw [doAt42 _ h8 h4 hv2, hl2, if_pos (show (0:Nat) < 1 by omega),
              if_neg hch2, readAt_width4]
        · intro ch hch
          try dsimp only
          rw [L4un ch (by omega), L2un ch (by omega)]
        · intro ch j hch hj
          by_cases hch2 : ch < 2
          · try dsimp only
            rw [L4below ch (by omega)]
            have hhit := L2hit ch (by omega) (by omega) (by omega)
            simp only [Nat.sub_zero, Nat.zero_add, Nat.add_zero] at hhit
            rw [hhit, readSamples_getD_miss 2 _ _ nOS _ j hj]
          · try dsimp only
            have hhit := L4hit ch (by omega) (by omega)
              (by rw [L2len]; omega)
            simp only [Nat.zero_add] at hhit
            rw [L2un ch (by omega)] at hhit
            rw [hhit, readSamples_getD_miss 4 _ _ nOS _ j hj]
    · -- no width-2 bucket: all channels come from the width-4 buckets
      have hl2 : buf.buffers2.length = 0 := by omega
      have hc2' : ¬ buf.numChannels ≤ 2 := by
        intro hcon
        have hx := hwf.len2
        rw [layout42_num2 _ h8 h4 hv2, if_pos hcon] at hx
        omega
      have hr : ¬ (0 < buf.numChannels % 4 ∧ buf.numChannels % 4 ≤ 2) := by
        intro hcon
        have hx := hwf.len2
        rw [layout42_num2 _ h8 h4 hv2, if_neg hc2', if_pos hcon] at hx
        omega
      have hl4 : buf.buffers4.length = buf.numChannels / 4 +
          (if 2 < buf.numChannels % 4 then 1 else 0) := by
        have hx := hwf.len4
        rw [layout42_num4 _ h8 h4 hv2, if_neg hc2'] at hx
        omega
      rw [if_neg (show ¬ (buf.cfg.vec2 = true ∧ 0 < buf.buffers2.length) by
        intro hcon
        have hx := hcon.2
        rw [hl2] at hx
        omega)]
      try dsimp only
      rw [if_neg (show ¬ (false = true) by simp)]
      rw [if_pos (show buf.cfg.vec4 = true ∧ 0 < buf.buffers4.length from
        ⟨h4, by rw [hl4]; split_ifs <;> omega⟩)]
      have hS2 : nOC ≤ 0 + 4 * groupSteps 4 nOC buf.buffers4.length := by
        rw [hl4]
        unfold groupSteps
        split_ifs <;> omega
      obtain ⟨L4len, L4done, L4proc, L4below, L4hit, L4un⟩ :=
        deinterleaveLoop_spec 4 (by omega) buf.buffers4 nOC nOS
          (groupSteps 4 nOC buf.buffers4.length) 0 output 0 (by omega)
      rw [if_pos (show (deinterleaveLoop 4 buf.buffers4 nOC nOS
          (groupSteps 4 nOC buf.buffers4.length) 0 output 0).done = true by
        rw [L4done]; exact decide_eq_true (by omega))]
      refine ⟨rfl, ?_, ?_, ?_⟩
      · intro ch j hch hj
        try dsimp only
        have hhit := L4hit ch (by omega) (by omega) (by omega)
        simp only [Nat.sub_zero, Nat.zero_add, Nat.add_zero] at hhit
        rw [hhit]
        rw [readSamples_getD_hit 4 _ _ nOS _ j hj
          (by have := hcl ch hch; omega)]
        rw [doAt42 _ h8 h4 hv2, hl2, if_neg (show ¬ ((0:Nat) < 0) by omega),
          readAt_width4]
      · intro ch hch
        try dsimp only
        exact L4un ch (by omega)
      · intro ch j hch hj
        try dsimp only
        have hhit := L4hit ch (by omega) (by omega) (by omega)
        simp only [Nat.sub_zero, Nat.zero_add, Nat.add_zero] at hhit
        rw [hhit, readSamples_getD_miss 4 _ _ nOS _ j hj]
  · -- 4-only family (float with only SSE2)
    have hl2 : buf.buffers2.length = 0 := by
      rw [hwf.len2, layout4_eq _ h8 h4 hv2]
    have hl8 : buf.buffers8.length = 0 := by
      rw [hwf.len8, layout4_eq _ h8 h4 hv2]
    have hl4 : buf.buffers4.length = buf.numChannels / 4 +
        (if 0 < buf.numChannels % 4 then 1 else 0) := by
      rw [hwf.len4, layout4_eq _ h8 h4 hv2]
    simp only [InterleavedBuffer.deinterleave]
    rw [if_neg (show ¬ (buf.numChannels < nOC ∨ buf.numSamples < nOS) by
      omega)]
    rw [if_neg (show ¬ (buf.cfg.vec2 = true ∧ 0 < buf.buffers2.length) by
      intro hcon
      have hx := hcon.2
      rw [hl2] at hx
      omega)]
    try dsimp only
    rw [if_neg (show ¬ (false = true) by simp)]
    rw [if_pos (show buf.cfg.vec4 = true ∧ 0 < buf.buffers4.length from
      ⟨h4, by rw [hl4]; split_ifs <;> omega⟩)]
    have hS2 : nOC ≤ 0 + 4 * groupSteps 4 nOC buf.buffers4.length := by
      rw [hl4]
      unfold groupSteps
      split_ifs <;> omega
    obtain ⟨L4len, L4done, L4proc, L4below, L4hit, L4un⟩ :=
      deinterleaveLoop_spec 4 (by omega) buf.buffers4 nOC nOS
        (groupSteps 4 nOC buf.buffers4.length) 0 output 0 (by omega)
    rw [if_pos (show (deinterleaveLoop 4 buf.buffers4 nOC nOS
        (groupSteps 4 nOC buf.buffers4.length) 0 output 0).done = true by
      rw [L4done]; exact decide_eq_true (by omega))]
    refine ⟨rfl, ?_, ?_, ?_⟩
    · intro ch j hch hj
      try dsimp only
      have hhit := L4hit ch (by omega) (by omega) (by omega)
      simp only [Nat.sub_zero, Nat.zero_add, Nat.add_zero] at hhit
      rw [hhit]
      rw [readSamples_getD_hit 4 _ _ nOS _ j hj
        (by have := hcl ch hch; omega)]
      rw [doAt4 _ h8 h4 hv2, readAt_width4]
    · intro ch hch
      try dsimp only
      exact L4un ch (by omega)
    · intro ch j hch hj
      try dsimp only
      have hhit := L4hit ch (by omega) (by omega) (by omega)
      simp only [Nat.sub_zero, Nat.zero_add, Nat.add_zero] at hhit
      rw [hhit, readSamples_getD_miss 4 _ _ nOS _ j hj]
  · -- 2-only family (double with only SSE2)
    have hl4 : buf.buffers4.length = 0 := by
      rw [hwf.len4, layout2_eq _ h8 h4]
    have hl8 : buf.buffers8.length = 0 := by
      rw [hwf.len8, layout2_eq _ h8 h4]
    have hl2 : buf.buffers2.length = buf.numChannels / 2 +
        (if 0 < buf.numChannels % 2 then 1 else 0) := by
      rw [hwf.len2, layout2_eq _ h8 h4]
    simp only [InterleavedBuffer.deinterleave]
    rw [if_neg (show ¬ (buf.numChannels < nOC ∨ buf.numSamples < nOS) by
      omega)]
    rw [if_pos (show buf.cfg.vec2 = true ∧ 0 < buf.buffers2.length from
      ⟨hv2, by rw [hl2]; split_ifs <;> omega⟩)]
    have hS2 : nOC ≤ 0 + 2 * groupSteps 2 nOC buf.buffers2.length := by
      rw [hl2]
      unfold groupSteps
      split_ifs <;> omega
    obtain ⟨L2len, L2done, L2proc, L2below, L2hit, L2un⟩ :=
      deinterleaveLoop_spec 2 (by omega) buf.buffers2 nOC nOS
        (groupSteps 2 nOC buf.buffers2.length) 0 output 0 (by omega)
    rw [if_pos (show (deinterleaveLoop 2 buf.buffers2 nOC nOS
        (groupSteps 2 nOC buf.buffers2.length) 0 output 0).done = true by
      rw [L2done]; exact decide_eq_true (by omega))]
    refine ⟨rfl, ?_, ?_, ?_⟩
    · intro ch j hch hj
      try dsimp only
      have hhit := L2hit ch (by omega) (by omega) (by omega)
      simp only [Nat.sub_zero, Nat.zero_add, Nat.add_zero] at hhit
      rw [hhit]
      rw [readSamples_getD_hit 2 _ _ nOS _ j hj
        (by have := hcl ch hch; omega)]
      rw [doAt2 _ h8 h4, readAt_width2]
    · intro ch hch
      try dsimp only
      exact L2un ch (by omega)
    · intro ch j hch hj
      try dsimp only
      have hhit := L2hit ch (by omega) (by omega) (by omega)
      simp only [Nat.sub_zero, Nat.zero_add, Nat.add_zero] at hhit
      rw [hhit, readSamples_getD_miss 2 _ _ nOS _ j hj]

theorem interleave_WF (buf : InterleavedBuffer α) (hwf : buf.WF)
    (X : List (List α)) (nIC nIS : Nat) :
    (buf.interleave X nIC nIS).1.WF := by
  obtain ⟨hc, hn, hs, _, h8, h4, h2, d8, d4, d2⟩ :=
    interleave_frame buf X nIC nIS
  refine ⟨?_, ?_, ?_, ?_, ?_, ?_⟩
  · rw [h8, hc, hn, hwf.len8]
  · rw [h4, hc, hn, hwf.len4]
  · rw [h2, hc, hn, hwf.len2]
  · refine mem_of_getD_len _ VecBuffer.empty _ (fun k hk => ?_)
    rw [d8 k, hs]
    rw [h8] at hk
    exact WF_data_len8 buf hwf k hk
  · refine mem_of_getD_len _ VecBuffer.empty _ (fun k hk => ?_)
    rw [d4 k, hs]
    rw [h4] at hk
    exact WF_data_len4 buf hwf k hk
  · refine mem_of_getD_len _ VecBuffer.empty _ (fun k hk => ?_)
    rw [d2 k, hs]
    rw [h2] at hk
    exact WF_data_len2 buf hwf k hk

theorem readAt_fill_zero (buf : InterleavedBuffer α) (L : ChannelLoc)
    (j : Nat) : (buf.fill 0).readAt L j = 0 := by
  unfold InterleavedBuffer.readAt InterleavedBuffer.bufferList
  split_ifs
  · show ((buf.buffers2.map (fun b => b.fill 0)).getD L.bucket
      VecBuffer.empty).data.getD (j * L.width + L.lane) 0 = 0
    rw [fill_map_getD_data, getD_replicate]
    split <;> rfl
  · show ((buf.buffers4.map (fun b => b.fill 0)).getD L.bucket
      VecBuffer.empty).data.getD (j * L.width + L.lane) 0 = 0
    rw [fill_map_getD_data, getD_replicate]
    split <;> rfl
  · show ((buf.buffers8.map (fun b => b.fill 0)).getD L.bucket
      VecBuffer.empty).data.getD (j * L.width + L.lane) 0 = 0
    rw [fill_map_getD_data, getD_replicate]
    split <;> rfl
  · rfl

theorem doAtChannel_shape (cfg : Cfg) (len2 len4 ch : Nat) :
    ((doAtChannel cfg len2 len4 ch).width = 2 ∨
      (doAtChannel cfg len2 len4 ch).width = 4 ∨
      (doAtChannel cfg len2 len4 ch).width = 8) ∧
    (doAtChannel cfg len2 len4 ch).lane < (doAtChannel cfg len2 len4 ch).width := by
  unfold doAtChannel
  split_ifs <;> exact ⟨by simp, by simp; omega⟩

theorem writtenWidths_mem (cfg : Cfg) (c nIC w' : Nat)
    (h : w' ∈ writtenWidths cfg c nIC) :
    (w' = 2 ∧ 0 < (layoutOf cfg c).num2) ∨
    (w' = 4 ∧ 0 < (layoutOf cfg c).num4) ∨
    (w' = 8 ∧ 0 < (layoutOf cfg c).num8) := by
  simp only [writtenWidths, List.mem_append] at h
  rcases h with (h | h) | h
  · left
    split at h
    · rename_i hc
      simp only [List.mem_singleton] at h
      exact ⟨h, hc.1⟩
    · simp at h
  · right; left
    split at h
    all_goals split at h
    all_goals
      first
      | (rename_i hc
         simp only [List.mem_singleton] at h
         exact ⟨h, hc.1⟩)
      | simp at h
  · right; right
    split at h
    all_goals try split at h
    all_goals try split at h
    all_goals
      first
      | (rename_i hc
         simp only [List.mem_singleton] at h
         exact ⟨h, hc.1⟩)
      | simp at h

theorem fillStep_eq_fill (buf : InterleavedBuffer α) (hv : buf.cfg.valid)
    (hwf : buf.WF)
    (nIC : Nat)
    (hex : ∃ w' ∈ writtenWidths buf.cfg buf.numChannels nIC, nIC % w' ≠ 0) :
    buf.fillStep nIC = buf.fill 0 := by
  obtain ⟨w', hw', hmod⟩ := hex
  have hmem := writtenWidths_mem buf.cfg buf.numChannels nIC w' hw'
  have hcases : (buf.cfg.vec8 = true ∧ buf.cfg.vec4 = true) ∨
      (buf.cfg.vec8 = false ∧ buf.cfg.vec4 = true ∧ buf.cfg.vec2 = true) ∨
      (buf.cfg.vec8 = false ∧ buf.cfg.vec4 = true ∧ buf.cfg.vec2 = false) ∨
      (buf.cfg.vec8 = false ∧ buf.cfg.vec4 = false ∧ buf.cfg.vec2 = true) := by
    rcases hv with h | h | h | h | h <;> rw [h] <;> decide
  unfold InterleavedBuffer.fillStep
  rcases hcases with ⟨h8, h4⟩ | ⟨h8, h4, hv2⟩ | ⟨h8, h4, hv2⟩ | ⟨h8, h4, hv2⟩
  · have hn2 : (layoutOf buf.cfg buf.numChannels).num2 = 0 :=
      layout84_num2 _ h8 _
    by_cases hL8 : 0 < buf.buffers8.length
    · have hn8 : 0 < (layoutOf buf.cfg buf.numChannels).num8 := by
        rw [← hwf.len8]; exact hL8
      rw [if_pos ⟨h8, hL8⟩, if_pos (show nIC % 8 ≠ 0 by
        rcases hmem with ⟨_, hx⟩ | ⟨he, _⟩ | ⟨he, _⟩
        · rw [hn2] at hx; omega
        · subst he; omega
        · subst he; omega)]
    · have hn8 : (layoutOf buf.cfg buf.numChannels).num8 = 0 := by
        rw [← hwf.len8]; omega
      have hk : w' = 4 ∧ 0 < (layoutOf buf.cfg buf.numChannels).num4 := by
        rcases hmem with ⟨_, hx⟩ | ⟨he, hx⟩ | ⟨_, hx⟩
        · rw [hn2] at hx; omega
        · exact ⟨he, hx⟩
        · rw [hn8] at hx; omega
      rw [if_neg (fun hcon => absurd hcon.2 (by omega)),
        if_pos ⟨h4, by rw [hwf.len4]; exact hk.2⟩,
        if_pos (show nIC % 4 ≠ 0 by rw [hk.1] at hmod; omega)]
  · have hn8 : (layoutOf buf.cfg buf.numChannels).num8 = 0 :=
      layout42_num8 _ h8 h4 hv2 _
    by_cases hL4 : 0 < buf.buffers4.length
    · rw [if_neg (fun hcon => by rw [h8] at hcon; exact absurd hcon.1 (by simp)),
        if_pos ⟨h4, hL4⟩, if_pos (show nIC % 4 ≠ 0 by
          rcases hmem with ⟨he, _⟩ | ⟨he, _⟩ | ⟨_, hx⟩
          · subst he; omega
          · subst he; omega
          · rw [hn8] at hx; omega)]
    · have hn4 : (layoutOf buf.cfg buf.numChannels).num4 = 0 := by
        rw [← hwf.len4]; omega
      have hk : w' = 2 := by
        rcases hmem with ⟨he, _⟩ | ⟨_, hx⟩ | ⟨_, hx⟩
        · exact he
        · rw [hn4] at hx; omega
        · rw [hn8] at hx; omega
      rw [if_neg (fun hcon => by rw [h8] at hcon; exact absurd hcon.1 (by simp)),
        if_neg (fun hcon => absurd hcon.2 (by omega)),
        if_pos (show nIC % 2 ≠ 0 by subst hk; omega)]
  · have hn2 : (layoutOf buf.cfg buf.numChannels).num2 = 0 := by
      rw [layout4_eq _ h8 h4 hv2]
    have hn8 : (layoutOf buf.cfg buf.numChannels).num8 = 0 := by
      rw [layout4_eq _ h8 h4 hv2]
    have hk : w' = 4 ∧ 0 < (layoutOf buf.cfg buf.numChannels).num4 := by
      rcases hmem with ⟨_, hx⟩ | ⟨he, hx⟩ | ⟨_, hx⟩
      · rw [hn2] at hx; omega
      · exact ⟨he, hx⟩
      · rw [hn8] at hx; omega
    rw [if_neg (fun hcon => by rw [h8] at hcon; exact absurd hcon.1 (by simp)),
      if_pos ⟨h4, by rw [hwf.len4]; exact hk.2⟩,
      if_pos (show nIC % 4 ≠ 0 by rw [hk.1] at hmod; omega)]
  · have hn4 : (layoutOf buf.cfg buf.numChannels).num4 = 0 := by
      rw [layout2_eq _ h8 h4]
    have hn8 : (layoutOf buf.cfg buf.numChannels).num8 = 0 := by
      rw [layout2_eq _ h8 h4]
    have hk : w' = 2 := by
      rcases hmem with ⟨he, _⟩ | ⟨_, hx⟩ | ⟨_, hx⟩
      · exact he
      · rw [hn4] at hx; omega
      · rw [hn8] at hx; omega
    rw [if_neg (fun hcon => by rw [h8] at hcon; exact absurd hcon.1 (by simp)),
      if_neg (fun hcon => by rw [h4] at hcon; exact absurd hcon.1 (by simp)),
      if_pos (show nIC % 2 ≠ 0 by subst hk; omega)]

/-- Claim C1: round-trip.  For every valid SIMD configuration, channel
count `c ∈ [1, 64]` and any sample count `s`, interleaving a planar
`c × s` input into a freshly constructed buffer succeeds, and
deinterleaving into a fresh planar `c × s` destination succeeds and
returns exactly the original input, element for element. -/
theorem claim1 (cfg : Cfg) (hv : cfg.valid) (c s : Nat) (hc1 : 1 ≤ c)
    (hc2 : c ≤ 64) (X output : List (List α)) (hX : X.length = c)
    (hXl : ∀ ch, ch < c → (X.getD ch []).length = s)
    (hO : output.length = c)
    (hOl : ∀ ch, ch < c → (output.getD ch []).length = s) :
    ((mkInterleavedBuffer cfg c s : InterleavedBuffer α).interleave
      X c s).2 = true ∧
    (((mkInterleavedBuffer cfg c s : InterleavedBuffer α).interleave
      X c s).1.deinterleave output c s).2 = true ∧
    (((mkInterleavedBuffer cfg c s : InterleavedBuffer α).interleave
      X c s).1.deinterleave output c s).1 = X := by
  have hbe := mk_eq (α := α) cfg c s hc1
  have hcfg : (mkInterleavedBuffer cfg c s : InterleavedBuffer α).cfg = cfg :=
    by rw [hbe]
  have hnc : (mkInterleavedBuffer cfg c s : InterleavedBuffer α).numChannels =
      c := by rw [hbe]
  have hns : (mkInterleavedBuffer cfg c s : InterleavedBuffer α).numSamples =
      s := by rw [hbe]
  have hwf := mk_WF (α := α) cfg c s hc1
  obtain ⟨I1, I2, _⟩ := interleave_spec (mkInterleavedBuffer cfg c s)
    (by rw [hcfg]; exact hv) hwf X c s hc1 (by rw [hnc]) (by rw [hns])
  obtain ⟨fcfg, fnc, fns, _, f8, f4, f2, _, _, _⟩ :=
    interleave_frame (mkInterleavedBuffer cfg c s : InterleavedBuffer α) X c s
  have hwf' := interleave_WF (mkInterleavedBuffer cfg c s : InterleavedBuffer α)
    hwf X c s
  obtain ⟨D1, D2, D3, D4⟩ := deinterleave_spec
    ((mkInterleavedBuffer cfg c s : InterleavedBuffer α).interleave X c s).1
    (by rw [fcfg, hcfg]; exact hv) hwf' output c s hc1
    (by rw [fnc, hnc]) (by rw [fns, hns]) hO.ge
    (fun ch hch => (hOl ch hch).ge)
  obtain ⟨dlen, dchlen⟩ := deinterleave_len
    ((mkInterleavedBuffer cfg c s : InterleavedBuffer α).interleave X c s).1
    output c s
  refine ⟨I1, D1, ?_⟩
  apply List.ext_getElem
  · rw [dlen, hO, hX]
  · intro i h1 h2
    have hic : i < c := by rw [hX] at h2; exact h2
    rw [← getD_eq_getElem _ i [] h1, ← getD_eq_getElem _ i [] h2]
    apply List.ext_getElem
    · rw [dchlen i, hOl i hic, hXl i hic]
    · intro j hj1 hj2
      have hjs : j < s := by rw [dchlen i, hOl i hic] at hj1; exact hj1
      rw [← getD_eq_getElem _ j 0 hj1, ← getD_eq_getElem _ j 0 hj2]
      rw [D2 i j hic hjs, fcfg, f2, f4]
      exact I2 i j hic hjs

/-- Claim C4: interleave tail zero-fill.  If the input channel count is
not a multiple of the width of some bucket group the call writes into,
then every lane of every bucket that is not covered by an input channel
reads back as zero after the call: the whole container is cleared first
(lines 570-584), and the write loops never touch those lanes. -/
theorem claim4 (buf : InterleavedBuffer α) (hv : buf.cfg.valid)
    (hwf : buf.WF) (X : List (List α)) (nIC nIS : Nat) (h1 : 1 ≤ nIC)
    (h2 : nIC ≤ buf.numChannels) (h3 : nIS ≤ buf.numSamples)
    (hrem : ∃ w' ∈ writtenWidths buf.cfg buf.numChannels nIC, nIC % w' ≠ 0)
    (wd k i j : Nat) (hwd : wd = 2 ∨ wd = 4 ∨ wd = 8)
    (hk : k < (buf.bufferList wd).length) (hi : i < wd)
    (hj : j < buf.numSamples)
    (hmiss : ∀ ch, ch < nIC →
      doAtChannel buf.cfg buf.buffers2.length buf.buffers4.length ch ≠
        ⟨wd, k, i⟩) :
    (buf.interleave X nIC nIS).1.readAt ⟨wd, k, i⟩ j = 0 := by
  have h := (interleave_spec buf hv hwf X nIC nIS h1 h2 h3).2.2 wd k i j
    hwd hk hi hj (Or.inl hmiss)
  rw [h, fillStep_eq_fill buf hv hwf nIC hrem, readAt_fill_zero]

/-- Claim C5 (corrected): `deinterleave` returns `false` and leaves the
destination untouched when `numOutputChannels > numChannels` or
`numOutputSamples > numSamples`; it also returns `false` (with the
destination untouched) when `numOutputChannels = 0`, because no group
loop runs and the final `return` reports failure — contradicting the
claim that every non-overflowing call returns `true`.  When
`1 ≤ numOutputChannels` (and the counts fit), it returns `true` after
copying each requested channel's first `numOutputSamples` samples. -/
theorem claim5 (buf : InterleavedBuffer α) (hv : buf.cfg.valid)
    (hwf : buf.WF) (output : List (List α)) (nOC nOS : Nat) :
    (buf.numChannels < nOC ∨ buf.numSamples < nOS →
      buf.deinterleave output nOC nOS = (output, false)) ∧
    (nOC = 0 → nOS ≤ buf.numSamples →
      buf.deinterleave output nOC nOS = (output, false)) ∧
    (1 ≤ nOC → nOC ≤ buf.numChannels → nOS ≤ buf.numSamples →
      nOC ≤ output.length →
      (∀ ch, ch < nOC → nOS ≤ (output.getD ch []).length) →
      (buf.deinterleave output nOC nOS).2 = true ∧
      (∀ ch j, ch < nOC → j < nOS →
        ((buf.deinterleave output nOC nOS).1.getD ch []).getD j 0 =
          buf.readAt
            (doAtChannel buf.cfg buf.buffers2.length buf.buffers4.length ch)
            j) ∧
      (∀ ch, nOC ≤ ch →
        (buf.deinterleave output nOC nOS).1.getD ch [] =
          output.getD ch [])) := by
  refine ⟨deinterleave_guard_false buf output nOC nOS, ?_, ?_⟩
  · intro h0 hS
    subst h0
    exact deinterleave_nOC_zero buf output nOS (by omega)
  · intro ha hb hc hd he
    obtain ⟨D1, D2, D3, _⟩ := deinterleave_spec buf hv hwf output nOC nOS
      ha hb hc hd he
    exact ⟨D1, D2, D3⟩

/-- Claim C3 (corrected): no recursive bucketing.  When the 8-wide
registers are available (so the chain 8 → 4 → 2 of the claim would
apply), `getNumOfVecBuffersUsedByInterleavedBuffer` never allocates a
width-2 bucket, whatever the channel count: the remainder bucket is
always width 4, even when it holds at most 2 channels, and
`doAtChannel` never resolves a channel to a width-2 location. -/
theorem claim3 (cfg : Cfg) (h8 : cfg.vec8 = true) (c : Nat) :
    (layoutOf cfg c).num2 = 0 ∧
    ((layoutOf cfg c).num4 =
      if c ≤ 4 then 1 else if 0 < c % 8 ∧ c % 8 ≤ 4 then 1 else 0) ∧
    (∀ ch,
      (doAtChannel cfg (layoutOf cfg c).num2 (layoutOf cfg c).num4
        ch).width ≠ 2) := by
  refine ⟨layout84_num2 _ h8 _, layout84_num4 _ h8 _, fun ch => ?_⟩
  rw [doAt84 _ h8]
  split_ifs <;> simp

/-- Claim C7 (corrected): alignment.  With cache-line (64-byte) aligned
storage and element size 4 or 8, every bucket base pointer and every
register-view pointer (scalar index a multiple of the lane width) is
aligned to `width * sizeof(element)` bytes; but the pointer returned by
`at(channel, sample)` is so aligned exactly when the channel's lane
within its bucket is 0 — for any non-zero lane the claimed invariant
fails. -/
theorem claim7 (buf : InterleavedBuffer α) (base es channel sample : Nat)
    (hb : IsAligned base CACHE_ALIGNMENT) (hes : es = 4 ∨ es = 8) :
    (∀ i w, w = 2 ∨ w = 4 ∨ w = 8 →
      IsAligned (elemAddr base es (i * w)) (w * es)) ∧
    (IsAligned (elemAddr base es (buf.atLoc channel sample).2)
        ((buf.atLoc channel sample).1.width * es) ↔
      (buf.atLoc channel sample).1.lane = 0) := by
  have hsh := doAtChannel_shape buf.cfg buf.buffers2.length
    buf.buffers4.length channel
  have hL1 : (buf.atLoc channel sample).1 =
      doAtChannel buf.cfg buf.buffers2.length buf.buffers4.length channel :=
    rfl
  have hL2 : (buf.atLoc channel sample).2 =
      (buf.atLoc channel sample).1.width * sample +
        (buf.atLoc channel sample).1.lane := rfl
  simp only [IsAligned, elemAddr, CACHE_ALIGNMENT] at hb ⊢
  rw [hL2]
  rw [hL1]
  constructor
  · intro i w hw
    rcases hw with rfl | rfl | rfl <;> rcases hes with rfl | rfl <;> omega
  · obtain ⟨hwd, hlane⟩ := hsh
    rcases hwd with hwd | hwd | hwd <;> rw [hwd] at hlane ⊢ <;>
      rcases hes with rfl | rfl <;>
      constructor <;> intro hx <;> omega

/-- Claim C6 (corrected): `at(channel, sample)` performs no bounds
check of its own — it unconditionally resolves the channel through
`doAtChannel` and indexes the bucket with plain `data[i]`
(`VecBuffer::operator()` has no assertion).  For arguments inside
`numChannels × numSamples` the resolved location and scalar index are
in bounds, so a reference into the buffer is returned; nothing traps
out-of-range arguments. -/
theorem claim6 (buf : InterleavedBuffer α) (hv : buf.cfg.valid)
    (hwf : buf.WF) (channel sample : Nat) (hch : channel < buf.numChannels)
    (hs : sample < buf.numSamples) :
    (buf.atLoc channel sample).1 =
      doAtChannel buf.cfg buf.buffers2.length buf.buffers4.length channel ∧
    (buf.atLoc channel sample).1.bucket <
      (buf.bufferList (buf.atLoc channel sample).1.width).length ∧
    (buf.atLoc channel sample).2 <
      ((buf.bufferList (buf.atLoc channel sample).1.width).getD
        (buf.atLoc channel sample).1.bucket VecBuffer.empty).data.length := by
  refine ⟨rfl, ?_⟩
  show (doAtChannel buf.cfg buf.buffers2.length buf.buffers4.length
      channel).bucket <
    (buf.bufferList (doAtChannel buf.cfg buf.buffers2.length
      buf.buffers4.length channel).width).length ∧
    ((doAtChannel buf.cfg buf.buffers2.length buf.buffers4.length
      channel).width * sample +
      (doAtChannel buf.cfg buf.buffers2.length buf.buffers4.length
        channel).lane) <
    ((buf.bufferList (doAtChannel buf.cfg buf.buffers2.length
      buf.buffers4.length channel).width).getD
      (doAtChannel buf.cfg buf.buffers2.length buf.buffers4.length
        channel).bucket VecBuffer.empty).data.length
  have hcases : (buf.cfg.vec8 = true ∧ buf.cfg.vec4 = true) ∨
      (buf.cfg.vec8 = false ∧ buf.cfg.vec4 = true ∧ buf.cfg.vec2 = true) ∨
      (buf.cfg.vec8 = false ∧ buf.cfg.vec4 = true ∧ buf.cfg.vec2 = false) ∨
      (buf.cfg.vec8 = false ∧ buf.cfg.vec4 = false ∧ buf.cfg.vec2 = true) := by
    rcases hv with h | h | h | h | h <;> rw [h] <;> decide
  rcases hcases with ⟨h8, h4⟩ | ⟨h8, h4, hv2⟩ | ⟨h8, h4, hv2⟩ | ⟨h8, h4, hv2⟩
  · rw [doAt84 _ h8]
    by_cases h44 : 0 < buf.buffers4.length
    · have hl4 : buf.buffers4.length = 1 := by
        rw [hwf.len4, layout84_num4 _ h8] at h44 ⊢
        split_ifs at h44 ⊢ <;> omega
      rw [if_pos h44]
      by_cases hc4 : channel < 4
      · rw [if_pos hc4]
        dsimp only
        rw [bufferList_four]
        refine ⟨by omega, ?_⟩
        rw [WF_data_len4 buf hwf 0 (by omega)]
        omega
      · rw [if_neg hc4]
        dsimp only
        have hc4' : ¬ buf.numChannels ≤ 4 := by omega
        have hr : 0 < buf.numChannels % 8 ∧ buf.numChannels % 8 ≤ 4 := by
          have hx := hwf.len4
          rw [layout84_num4 _ h8, hl4] at hx
          by_cases hy : 0 < buf.numChannels % 8 ∧ buf.numChannels % 8 ≤ 4
          · exact hy
          · rw [if_neg hc4', if_neg hy] at hx
            omega
        have hl8 : buf.buffers8.length = buf.numChannels / 8 := by
          have hx := hwf.len8
          rw [layout84_num8 _ h8, if_neg hc4',
            if_neg (show ¬ 4 < buf.numChannels % 8 by omega)] at hx
          omega
        rw [bufferList_eight]
        refine ⟨by rw [hl8]; omega, ?_⟩
        rw [WF_data_len8 buf hwf _ (by rw [hl8]; omega)]
        omega
    · have hl4 : buf.buffers4.length = 0 := by omega
      rw [if_neg h44]
      dsimp only
      have hc4' : ¬ buf.numChannels ≤ 4 := by
        intro hcon
        have hx := hwf.len4
        rw [layout84_num4 _ h8, if_pos hcon] at hx
        omega
      have hr : ¬ (0 < buf.numChannels % 8 ∧ buf.numChannels % 8 ≤ 4) := by
        intro hcon
        have hx := hwf.len4
        rw [layout84_num4 _ h8, if_neg hc4', if_pos hcon] at hx
        omega
      have hl8 : buf.buffers8.length = buf.numChannels / 8 +
          (if 4 < buf.numChannels % 8 then 1 else 0) := by
        have hx := hwf.len8
        rw [layout84_num8 _ h8, if_neg hc4'] at hx
        omega
      rw [bufferList_eight]
      refine ⟨by rw [hl8]; split_ifs at hl8 ⊢ <;> omega, ?_⟩
      rw [WF_data_len8 buf hwf _ (by rw [hl8]; split_ifs <;> omega)]
      omega
  · rw [doAt42 _ h8 h4 hv2]
    by_cases h22 : 0 < buf.buffers2.length
    · have hl2 : buf.buffers2.length = 1 := by
        have hx := hwf.len2
        rw [layout42_num2 _ h8 h4 hv2] at hx
        split_ifs at hx <;> omega
      rw [if_pos h22]
      by_cases hc2 : channel < 2
      · rw [if_pos hc2]
        dsimp only
        rw [bufferList_two]
        refine ⟨by omega, ?_⟩
        rw [WF_data_len2 buf hwf 0 (by omega)]
        omega
      · rw [if_neg hc2]
        dsimp only
        have hc2' : ¬ buf.numChannels ≤ 2 := by omega
        have hr : 0 < buf.numChannels % 4 ∧ buf.numChannels % 4 ≤ 2 := by
          have hx := hwf.len2
          rw [layout42_num2 _ h8 h4 hv2, hl2] at hx
          by_cases hy : 0 < buf.numChannels % 4 ∧ buf.numChannels % 4 ≤ 2
          · exact hy
          · rw [if_neg hc2', if_neg hy] at hx
            omega
        have hl4 : buf.buffers4.length = buf.numChannels / 4 := by
          have hx := hwf.len4
          rw [layout42_num4 _ h8 h4 hv2, if_neg hc2',
            if_neg (show ¬ 2 < buf.numChannels % 4 by omega)] at hx
          omega
        rw [bufferList_four]
        refine ⟨by rw [hl4]; omega, ?_⟩
        rw [WF_data_len4 buf hwf _ (by rw [hl4]; omega)]
        omega
    · have hl2 : buf.buffers2.length = 0 := by omega
      rw [if_neg h22]
      dsimp only
      have hc2' : ¬ buf.numChannels ≤ 2 := by
        intro hcon
        have hx := hwf.len2
        rw [layout42_num2 _ h8 h4 hv2, if_pos hcon] at hx
        omega
      have hr : ¬ (0 < buf.numChannels % 4 ∧ buf.numChannels % 4 ≤ 2) := by
        intro hcon
        have hx := hwf.len2
        rw [layout42_num2 _ h8 h4 hv2, if_neg hc2', if_pos hcon] at hx
        omega
      have hl4 : buf.buffers4.length = buf.numChannels / 4 +
          (if 2 < buf.numChannels % 4 then 1 else 0) := by
        have hx := hwf.len4
        rw [layout42_num4 _ h8 h4 hv2, if_neg hc2'] at hx
        omega
      rw [bufferList_four]
      refine ⟨by rw [hl4]; split_ifs <;> omega, ?_⟩
      rw [WF_data_len4 buf hwf _ (by rw [hl4]; split_ifs <;> omega)]
      omega
  · rw [doAt4 _ h8 h4 hv2]
    dsimp only
    have hl4 : buf.buffers4.length = buf.numChannels / 4 +
        (if 0 < buf.numChannels % 4 then 1 else 0) := by
      rw [hwf.len4, layout4_eq _ h8 h4 hv2]
    rw [bufferList_four]
    refine ⟨by rw [hl4]; split_ifs <;> omega, ?_⟩
    rw [WF_data_len4 buf hwf _ (by rw [hl4]; split_ifs <;> omega)]
    omega
  · rw [doAt2 _ h8 h4]
    dsimp only
    have hl2 : buf.buffers2.length = buf.numChannels / 2 +
        (if 0 < buf.numChannels % 2 then 1 else 0) := by
      rw [hwf.len2, layout2_eq _ h8 h4]
    rw [bufferList_two]
    refine ⟨by rw [hl2]; split_ifs <;> omega, ?_⟩
    rw [WF_data_len2 buf hwf _ (by rw [hl2]; split_ifs <;> omega)]
    omega

theorem claim1_witness :
    Cfg.valid cfgFloatAvx ∧ exInput.length = 10 ∧ exFresh.length = 10 ∧
    ((mkInterleavedBuffer cfgFloatAvx 10 4 : InterleavedBuffer Int).interleave
      exInput 10 4).2 = true ∧
    (((mkInterleavedBuffer cfgFloatAvx 10 4 : InterleavedBuffer
      Int).interleave exInput 10 4).1.deinterleave exFresh 10 4).2 = true ∧
    (((mkInterleavedBuffer cfgFloatAvx 10 4 : InterleavedBuffer
      Int).interleave exInput 10 4).1.deinterleave exFresh 10 4).1 =
      exInput := by
  have h := claim1 (α := Int) cfgFloatAvx (by decide) 10 4 (by omega)
    (by omega) exInput exFresh (by decide) (by decide) (by decide) (by decide)
  exact ⟨by decide, by decide, by decide, h.1, h.2.1, h.2.2⟩

theorem claim2_witness :
    Cfg.valid cfgFloatAvx ∧ (3 : Nat) ≤ 4 ∧
    (layoutOf cfgFloatAvx 3).ofWidth 4 = 1 ∧
    (layoutOf cfgFloatAvx 3).ofWidth 8 = 0 ∧
    doAtChannel cfgFloatAvx (layoutOf cfgFloatAvx 3).num2
      (layoutOf cfgFloatAvx 3).num4 2 = ⟨4, 0, 2⟩ := by
  have h := (claim2 cfgFloatAvx 8 4 (by decide) (Or.inl (by decide)) 3).1
    (by omega)
  exact ⟨by decide, by omega, h.1, h.2.1, h.2.2 2 (by omega)⟩

theorem claim3_counterexample :
    cfgDoubleAvx512.vec8 = true ∧ cfgDoubleAvx512.vec4 = true ∧
    cfgDoubleAvx512.vec2 = true ∧
    0 < 10 % 8 ∧ 10 % 8 ≤ 2 ∧
    (layoutOf cfgDoubleAvx512 10).num2 = 0 ∧
    (layoutOf cfgDoubleAvx512 10).num4 = 1 := by decide

theorem claim3_witness :
    cfgDoubleAvx512.vec8 = true ∧
    (layoutOf cfgDoubleAvx512 10).num2 = 0 ∧
    (doAtChannel cfgDoubleAvx512 (layoutOf cfgDoubleAvx512 10).num2
      (layoutOf cfgDoubleAvx512 10).num4 9).width ≠ 2 := by
  have h := claim3 cfgDoubleAvx512 (by decide) 10
  exact ⟨by decide, h.1, h.2.2 9⟩

theorem claim4_witness :
    (∃ w' ∈ writtenWidths
      (mkInterleavedBuffer cfgFloatAvx 10 4 : InterleavedBuffer Int).cfg
      (mkInterleavedBuffer cfgFloatAvx 10 4 :
        InterleavedBuffer Int).numChannels 6, 6 % w' ≠ 0) ∧
    (∀ ch, ch < 6 →
      doAtChannel
        (mkInterleavedBuffer cfgFloatAvx 10 4 : InterleavedBuffer Int).cfg
        (mkInterleavedBuffer cfgFloatAvx 10 4 :
          InterleavedBuffer Int).buffers2.length
        (mkInterleavedBuffer cfgFloatAvx 10 4 :
          InterleavedBuffer Int).buffers4.length ch ≠ ⟨8, 0, 5⟩) ∧
    ((mkInterleavedBuffer cfgFloatAvx 10 4 : InterleavedBuffer
      Int).interleave exInput 6 4).1.readAt ⟨8, 0, 5⟩ 0 = 0 := by
  have h := claim4 (α := Int) (mkInterleavedBuffer cfgFloatAvx 10 4)
    (by decide) (mk_WF cfgFloatAvx 10 4 (by omega)) exInput 6 4 (by omega)
    (by decide) (by decide) (by decide) 8 0 5 0 (by decide) (by decide)
    (by decide) (by decide) (by decide)
  exact ⟨by decide, by decide, h⟩

theorem claim5_counterexample :
    ¬ ((mkInterleavedBuffer cfgFloatAvx 2 4 :
        InterleavedBuffer Int).numChannels < 0 ∨
      (mkInterleavedBuffer cfgFloatAvx 2 4 :
        InterleavedBuffer Int).numSamples < 0) ∧
    (mkInterleavedBuffer cfgFloatAvx 2 4 : InterleavedBuffer Int).deinterleave
      [[5, 5, 5, 5], [5, 5, 5, 5]] 0 0 =
      ([[5, 5, 5, 5], [5, 5, 5, 5]], false) := by decide

theorem claim5_witness :
    (mkInterleavedBuffer cfgFloatAvx 2 4 : InterleavedBuffer Int).WF ∧
    ((mkInterleavedBuffer cfgFloatAvx 2 4 : InterleavedBuffer
      Int).deinterleave [[0, 0, 0, 0], [0, 0, 0, 0]] 2 4).2 = true := by
  have h := claim5 (α := Int) (mkInterleavedBuffer cfgFloatAvx 2 4)
    (by decide) (mk_WF cfgFloatAvx 2 4 (by omega)) [[0, 0, 0, 0], [0, 0, 0, 0]]
    2 4
  exact ⟨mk_WF cfgFloatAvx 2 4 (by omega),
    (h.2.2 (by omega) (by decide) (by decide) (by decide) (by decide)).1⟩

theorem claim6_counterexample :
    (mkInterleavedBuffer cfgFloatAvx 10 4 :
      InterleavedBuffer Int).numChannels = 10 ∧
    ((mkInterleavedBuffer cfgFloatAvx 10 4 :
      InterleavedBuffer Int).atLoc 10 0).1.bucket <
      ((mkInterleavedBuffer cfgFloatAvx 10 4 :
        InterleavedBuffer Int).bufferList
        ((mkInterleavedBuffer cfgFloatAvx 10 4 :
          InterleavedBuffer Int).atLoc 10 0).1.width).length ∧
    ((mkInterleavedBuffer cfgFloatAvx 10 4 :
      InterleavedBuffer Int).atLoc 10 0).2 <
      (((mkInterleavedBuffer cfgFloatAvx 10 4 :
        InterleavedBuffer Int).bufferList
        ((mkInterleavedBuffer cfgFloatAvx 10 4 :
          InterleavedBuffer Int).atLoc 10 0).1.width).getD
        ((mkInterleavedBuffer cfgFloatAvx 10 4 :
          InterleavedBuffer Int).atLoc 10 0).1.bucket
        VecBuffer.empty).data.length := by decide

theorem claim6_witness :
    (mkInterleavedBuffer cfgFloatAvx 10 4 :
      InterleavedBuffer Int).cfg.valid ∧
    ((mkInterleavedBuffer cfgFloatAvx 10 4 :
      InterleavedBuffer Int).atLoc 3 1).1.bucket <
      ((mkInterleavedBuffer cfgFloatAvx 10 4 :
        InterleavedBuffer Int).bufferList
        ((mkInterleavedBuffer cfgFloatAvx 10 4 :
          InterleavedBuffer Int).atLoc 3 1).1.width).length ∧
    ((mkInterleavedBuffer cfgFloatAvx 10 4 :
      InterleavedBuffer Int).atLoc 3 1).2 <
      (((mkInterleavedBuffer cfgFloatAvx 10 4 :
        InterleavedBuffer Int).bufferList
        ((mkInterleavedBuffer cfgFloatAvx 10 4 :
          InterleavedBuffer Int).atLoc 3 1).1.width).getD
        ((mkInterleavedBuffer cfgFloatAvx 10 4 :
          InterleavedBuffer Int).atLoc 3 1).1.bucket
        VecBuffer.empty).data.length := by
  have h := claim6 (α := Int) (mkInterleavedBuffer cfgFloatAvx 10 4)
    (by decide) (mk_WF cfgFloatAvx 10 4 (by omega)) 3 1 (by decide)
    (by decide)
  exact ⟨by decide, h.2.1, h.2.2⟩

theorem claim7_counterexample :
    IsAligned 64 CACHE_ALIGNMENT ∧
    1 < (mkInterleavedBuffer cfgFloatAvx 2 4 :
      InterleavedBuffer Int).numChannels ∧
    0 < (mkInterleavedBuffer cfgFloatAvx 2 4 :
      InterleavedBuffer Int).numSamples ∧
    ((mkInterleavedBuffer cfgFloatAvx 2 4 :
      InterleavedBuffer Int).atLoc 1 0).1.width = 4 ∧
    ¬ IsAligned
      (elemAddr 64 4 ((mkInterleavedBuffer cfgFloatAvx 2 4 :
        InterleavedBuffer Int).atLoc 1 0).2) (4 * 4) := by decide

theorem claim7_witness :
    IsAligned 64 CACHE_ALIGNMENT ∧
    (IsAligned
      (elemAddr 64 4 ((mkInterleavedBuffer cfgFloatAvx 2 4 :
        InterleavedBuffer Int).atLoc 1 0).2)
      (((mkInterleavedBuffer cfgFloatAvx 2 4 :
        InterleavedBuffer Int).atLoc 1 0).1.width * 4) ↔
      ((mkInterleavedBuffer cfgFloatAvx 2 4 :
        InterleavedBuffer Int).atLoc 1 0).1.lane = 0) := by
  have h := claim7 (α := Int) (mkInterleavedBuffer cfgFloatAvx 2 4) 64 4 1 0
    (by decide) (Or.inl rfl)
  exact ⟨by decide, h.2⟩

theorem claim8_witness :
    Cfg.valid cfgFloatAvx ∧ 12 ≤ totalLanes cfgFloatAvx 12 ∧
    totalLanes cfgFloatAvx 12 - 12 < 4 := by
  have h := claim8 cfgFloatAvx (by decide) 12
  exact ⟨by decide, h.1,
    h.2.2 8 4 (Or.inl (by decide)) (by omega) (by decide) (by decide)⟩

theorem claim9_witness :
    2 ≤ (mkInterleavedBuffer cfgFloatAvx 2 4 :
      InterleavedBuffer Int).capacity ∧
    (mkInterleavedBuffer cfgFloatAvx 2 4 : InterleavedBuffer Int).reserve 2 =
      mkInterleavedBuffer cfgFloatAvx 2 4 := by
  have h := claim9 (α := Int)
  exact ⟨by decide, h.2.2.2.2.2.2.2.1 (mkInterleavedBuffer cfgFloatAvx 2 4)
    2 (by decide)⟩
